import Mathlib

/-!
Shallow embedding of the slack-archive conversation pipeline
(`src/app/emoji.go` user directory section, `src/app/messages.go`,
`src/app/conversations.go`, `src/app/files.go`), together with theorems
settling the frozen claims about it.

Modelling conventions:
* Upstream Slack API calls are modelled as pure functions on a
  `SlackClient` record; a failed call is `none`.
* The Go map `usersById` is modelled as an association list; Go map
  iteration order is unspecified, the model iterates in insertion order.
* Go `time.Time` values produced from Slack timestamps are modelled as
  `Int` seconds since the Unix epoch (the code builds them with
  `time.Unix(seconds, 0)`); the Go zero `time.Time` corresponds to the
  constant `goZeroTimeUnix`.
-/

namespace SlackArchive

/-- Subset of `slack.UserProfile` used by the archive code. -/
structure UserProfile where
  Image24 : String := ""
  Image32 : String := ""
  Image48 : String := ""
  Image72 : String := ""
  Image192 : String := ""
deriving DecidableEq

/-- Subset of `slack.User` used by the archive code. -/
structure SlackUser where
  ID : String
  Name : String
  Profile : UserProfile := {}
deriving DecidableEq

/-- Subset of `slack.Bot` used by `UserLookup.GetUser`. -/
structure BotIcons where
  Image48 : String := ""
  Image72 : String := ""
deriving DecidableEq

/-- Subset of `slack.Bot` used by `UserLookup.GetUser`. -/
structure SlackBot where
  ID : String
  Name : String
  Icons : BotIcons := {}
deriving DecidableEq

/-- Subset of `slack.Message` used by author resolution and grouping. -/
structure SlackMessage where
  User : String := ""
  BotID : String := ""
  Username : String := ""
  Timestamp : String := ""
  Hidden : Bool := false
deriving DecidableEq

/-- Subset of `slack.Channel` used by the conversation variants. -/
structure SlackChannel where
  ID : String
  Name : String := ""
  User : String := ""
  PurposeValue : String := ""
deriving DecidableEq

/-- Subset of the `slack.AuthTestResponse` used by the archive code. -/
structure AuthTestResponse where
  UserID : String := ""
  URL : String := ""
deriving DecidableEq

/-- Pure model of the upstream Slack API as seen by the archive code.
Each operation returns `none` where the Go call returns an error. -/
structure SlackClient where
  GetUsers : Option (List SlackUser) := none
  GetUserInfo : String → Option SlackUser := fun _ => none
  GetBotInfo : String → Option SlackBot := fun _ => none
  GetConversationInfo : String → Option SlackChannel := fun _ => none
  AuthTest : Option AuthTestResponse := none
  GetUsersInConversation : String → Option (List String) := fun _ => none

/-- The `usersById` map of `UserLookup`, as an association list. -/
abbrev UsersById : Type := List (String × SlackUser)

/-- Lookup in the modelled Go map. -/
def mapLookup (m : UsersById) (k : String) : Option SlackUser :=
  (List.find? (fun p => p.1 == k) m).map (fun p => p.2)

/-- Insert into the modelled Go map (replace an existing key, else append). -/
def mapInsert (m : UsersById) (k : String) (v : SlackUser) : UsersById :=
  if (List.find? (fun p => p.1 == k) m).isSome then
    List.map (fun p => if p.1 == k then (k, v) else p) m
  else
    m ++ [(k, v)]

/-- `newUserLookup` (src/app/emoji.go): bulk-fetches all users and keys them
by ID.  Returns `none` when the bulk fetch fails. -/
def newUserLookup (c : SlackClient) : Option UsersById :=
  c.GetUsers.map (fun users => users.foldl (fun m u => mapInsert m u.ID u) [])

/-- The user-shaped record `UserLookup.GetUser` synthesizes from bot info. -/
def botToUser (bot : SlackBot) : SlackUser :=
  { ID := bot.ID
    Name := bot.Name
    Profile := { Image48 := bot.Icons.Image48, Image72 := bot.Icons.Image72 } }

/-- `UserLookup.GetUser` (src/app/emoji.go, lines 206-234): cache lookup,
then for "B"-ids a bot-info fetch (caching a user synthesized from the bot),
then a plain user-info fetch (cached on success).  Returns the resolved user
and the updated cache. -/
def GetUser (c : SlackClient) (usersById : UsersById) (userId : String) :
    Option SlackUser × UsersById :=
  match mapLookup usersById userId with
  | some user => (some user, usersById)
  | none =>
    match (if userId.startsWith "B" then c.GetBotInfo userId else none) with
    | some bot =>
      let botUser := botToUser bot
      (some botUser, mapInsert usersById userId botUser)
    | none =>
      match c.GetUserInfo userId with
      | some lookupUser => (some lookupUser, mapInsert usersById userId lookupUser)
      | none => (none, usersById)

/-- `UserLookup.GetUserByName` (src/app/emoji.go, lines 236-245):
case-insensitive scan of the already-cached users.  `strings.EqualFold` is
modelled by comparing `toLower` images. -/
def GetUserByName (usersById : UsersById) (name : String) : Option SlackUser :=
  (List.find? (fun p => p.2.Name.toLower == name.toLower) usersById).map (fun p => p.2)

def SyntheticUserImageUrl (size : Nat) : String :=
  "https://i1.wp.com/slack.global.ssl.fastly.net/66f9/img/avatars/ava_0025-"
    ++ toString size ++ ".png?ssl=1"

def SyntheticBotUserImageUrl : String :=
  "https://slack.global.ssl.fastly.net/66f9/img/default_application_icon.png"

/-- `newSyntheticUser` (src/app/emoji.go, lines 282-294). -/
def newSyntheticUser (name : String) : SlackUser :=
  { ID := "synthetic-" ++ name
    Name := name
    Profile :=
      { Image24 := SyntheticUserImageUrl 24
        Image32 := SyntheticUserImageUrl 32
        Image48 := SyntheticUserImageUrl 48
        Image72 := SyntheticUserImageUrl 72
        Image192 := SyntheticUserImageUrl 192 } }

/-- `newSyntheticBotUser` (src/app/emoji.go, lines 296-308). -/
def newSyntheticBotUser (name : String) : SlackUser :=
  { ID := "synthetic-" ++ name
    Name := name
    Profile :=
      { Image24 := SyntheticBotUserImageUrl
        Image32 := SyntheticBotUserImageUrl
        Image48 := SyntheticBotUserImageUrl
        Image72 := SyntheticBotUserImageUrl
        Image192 := SyntheticBotUserImageUrl } }

/-- `UserLookup.GetUserForMessage` (src/app/emoji.go, lines 247-280): the
fallback chain resolving a message author.  State (the cache) is threaded
explicitly. -/
def GetUserForMessage (c : SlackClient) (st : UsersById) (message : SlackMessage) :
    Option SlackUser × UsersById :=
  match (if message.User ≠ "" then GetUser c st message.User else (none, st)) with
  | (some u, st1) => (some u, st1)
  | (none, st1) =>
    match (if message.BotID ≠ "" then GetUser c st1 message.BotID else (none, st1)) with
    | (some u, st2) => (some u, st2)
    | (none, st2) =>
      if message.Username ≠ "" then
        match GetUserByName st2 message.Username with
        | some u => (some u, st2)
        | none => (some (newSyntheticUser message.Username), st2)
      else if message.User ≠ "" then (some (newSyntheticUser message.User), st2)
      else if message.BotID ≠ "" then (some (newSyntheticBotUser message.BotID), st2)
      else (none, st2)

/-- Accumulate a decimal digit string into a natural number. -/
def digitsToNat (ds : List Char) : Nat :=
  ds.foldl (fun n d => 10 * n + (d.toNat - Char.toNat '0')) 0

/-- Model of `int64(strconv.ParseFloat(s, 64))` as used on Slack timestamp
strings: an optional sign, a decimal digit string, and an optional fractional
part, truncated toward zero.  Returns `none` where Go `ParseFloat` errors.
Exotic float syntaxes (exponents, inf/nan, hex) never occur in Slack
fixed-point-seconds timestamps and are outside the model. -/
def parseFixedPointSeconds (s : String) : Option Int :=
  let (sign, rest) :=
    match s.toList with
    | '+' :: cs => ((1 : Int), cs)
    | '-' :: cs => ((-1 : Int), cs)
    | cs => ((1 : Int), cs)
  let intPart := rest.takeWhile Char.isDigit
  let afterInt := rest.dropWhile Char.isDigit
  match afterInt with
  | [] => if intPart = [] then none else some (sign * digitsToNat intPart)
  | '.' :: fracPart =>
    if fracPart.all Char.isDigit ∧ (intPart ≠ [] ∨ fracPart ≠ []) then
      some (sign * digitsToNat intPart)
    else none
  | _ => none

/-- Unix seconds of the zero Go `time.Time` (January 1, year 1, 00:00:00 UTC),
the value `Message.TimestampTime` returns when the timestamp fails to parse. -/
def goZeroTimeUnix : Int := -62135596800

/-- `Message.TimestampTime` (src/app/messages.go, lines 207-214), as an
instant in Unix seconds.  `time.Time.In` only changes the display location,
not the instant, so it is invisible here. -/
def TimestampTime (m : SlackMessage) : Int :=
  match parseFixedPointSeconds m.Timestamp with
  | none => goZeroTimeUnix
  | some floatTimestamp => floatTimestamp

/-- `MessageGroup` (src/app/messages.go, lines 282-285).  The Go `Message`
wrapper only adds the client and account context to the raw message, so the
model stores raw messages. -/
structure MessageGroup where
  Messages : List SlackMessage
  Author : SlackUser
deriving DecidableEq

/-- `MessageGroup.shouldContainMessage` (src/app/messages.go, lines 306-316).
Go indexes `Messages[len(Messages)-1]`; inside `groupMessages` the group
always holds at least one message when this method runs, so the `getLast?`
`none` branch is unreachable there. -/
def shouldContainMessage (mg : MessageGroup) (message : SlackMessage)
    (messageAuthor : SlackUser) : Bool :=
  if messageAuthor.ID ≠ mg.Author.ID then false
  else
    match mg.Messages.getLast? with
    | none => true
    | some lastMessage =>
      if TimestampTime message - TimestampTime lastMessage > 10 * 60 then false
      else true

/-- The loop body of `groupMessages` (src/app/messages.go, lines 330-349).
Go appends each freshly created group pointer to `groups` immediately and
keeps mutating it through `currentGroup`; the functional model keeps the
current group out of the accumulator until it is closed (or the input ends),
which yields the same final list. -/
def groupMessagesLoop (c : SlackClient) :
    List SlackMessage → Option MessageGroup → List MessageGroup → UsersById →
      List MessageGroup
  | [], currentGroup, groups, _ => groups ++ currentGroup.toList
  | message :: rest, currentGroup, groups, st =>
    if message.Hidden then groupMessagesLoop c rest currentGroup groups st
    else
      match GetUserForMessage c st message with
      | (none, st2) => groupMessagesLoop c rest currentGroup groups st2
      | (some messageAuthor, st2) =>
        match currentGroup with
        | none =>
          groupMessagesLoop c rest
            (some { Messages := [message], Author := messageAuthor }) groups st2
        | some mg =>
          if shouldContainMessage mg message messageAuthor then
            groupMessagesLoop c rest
              (some { mg with Messages := mg.Messages ++ [message] }) groups st2
          else
            groupMessagesLoop c rest
              (some { Messages := [message], Author := messageAuthor })
              (groups ++ [mg]) st2

/-- `groupMessages` (src/app/messages.go, lines 323-351): `none` exactly when
`newUserLookup` fails. -/
def groupMessages (c : SlackClient) (messages : List SlackMessage) :
    Option (List MessageGroup) :=
  (newUserLookup c).map (fun st => groupMessagesLoop c messages none [] st)

/-- `ConversationArchive.Empty` (src/app/conversations.go, lines 329-336):
true unless some group holds a message. -/
def ConversationArchiveEmpty (messageGroups : List MessageGroup) : Bool :=
  !(messageGroups.any (fun mg => 0 < mg.Messages.length))

/-- One page of `GetConversationHistory` as consumed by the pagination loop:
the messages arrive newest-first. -/
structure HistoryPage where
  Messages : List SlackMessage
  HasMore : Bool
deriving DecidableEq

/-- Outcome of the pagination loop of `newConversationArchive`. -/
inductive PaginationResult where
  | ok (messages : List SlackMessage)
  | fetchError
  | panic
  | outOfScript
deriving DecidableEq

/-- The pagination loop of `newConversationArchive`
(src/app/conversations.go, lines 362-374), driven by a finite script of
upstream responses, one per iteration (`none` models a failed fetch;
`outOfScript` means the loop was still running when the script ended).
Each page is prepended message-by-message, reversing it into the
accumulator; on `HasMore` the `Latest` cursor is set to the timestamp of
`Messages[len(Messages)-1]`, the oldest message of the page, which in Go
panics with an index-out-of-range error when the page is empty —
modelled by the `panic` outcome. -/
def paginateHistory (pages : List (Option HistoryPage)) (latest : String)
    (messages : List SlackMessage) : PaginationResult :=
  match pages with
  | [] => .outOfScript
  | none :: _ => .fetchError
  | some history :: rest =>
    let messages2 := history.Messages.reverse ++ messages
    if !history.HasMore then .ok messages2
    else
      match history.Messages.getLast? with
      | none => .panic
      | some oldest => paginateHistory rest oldest.Timestamp messages2

/-- Civil date in the account's timezone.  The model has no DST
transitions: a Go `time.Location` is modelled as a fixed offset, under
which calendar-day arithmetic is exact. -/
structure CivilDate where
  Year : Int
  Month : Int
  Day : Int
deriving DecidableEq

/-- Civil wall-clock datetime in the account's timezone. -/
structure CivilDateTime where
  Date : CivilDate
  Hour : Int
  Minute : Int
  Second : Int
deriving DecidableEq

def isLeapYear (y : Int) : Bool :=
  (y % 4 == 0 && y % 100 != 0) || y % 400 == 0

def daysInMonth (y : Int) (m : Int) : Int :=
  if m = 2 then (if isLeapYear y then 29 else 28)
  else if m = 4 ∨ m = 6 ∨ m = 9 ∨ m = 11 then 30
  else 31

def ValidDate (d : CivilDate) : Prop :=
  1 ≤ d.Month ∧ d.Month ≤ 12 ∧ 1 ≤ d.Day ∧ d.Day ≤ daysInMonth d.Year d.Month

instance (d : CivilDate) : Decidable (ValidDate d) := by
  unfold ValidDate
  infer_instance

/-- Go `time.Date` normalization of `(y, m, d-1)` for a valid date: the
previous calendar day (what `AddDate(0, 0, -1)` produces). -/
def prevDay (d : CivilDate) : CivilDate :=
  if d.Day > 1 then { d with Day := d.Day - 1 }
  else if d.Month > 1 then
    { Year := d.Year, Month := d.Month - 1,
      Day := daysInMonth d.Year (d.Month - 1) }
  else { Year := d.Year - 1, Month := 12, Day := 31 }

/-- Go `time.Date` normalization of `(y, m, d+1)` for a valid date: the
next calendar day (what `AddDate(0, 0, 1)` produces). -/
def nextDay (d : CivilDate) : CivilDate :=
  if d.Day < daysInMonth d.Year d.Month then { d with Day := d.Day + 1 }
  else if d.Month < 12 then { Year := d.Year, Month := d.Month + 1, Day := 1 }
  else { Year := d.Year + 1, Month := 1, Day := 1 }

/-- Go `t.Add(-time.Second)` on a civil datetime in a fixed-offset
location. -/
def subOneSecond (t : CivilDateTime) : CivilDateTime :=
  if t.Second > 0 then { t with Second := t.Second - 1 }
  else if t.Minute > 0 then { t with Minute := t.Minute - 1, Second := 59 }
  else if t.Hour > 0 then { t with Hour := t.Hour - 1, Minute := 59, Second := 59 }
  else { Date := prevDay t.Date, Hour := 23, Minute := 59, Second := 59 }

/-- The archive-window computation of `newConversationArchive`
(src/app/conversations.go, lines 344-353).  Outside dev mode:
`archiveStartTime = time.Date(now.Year(), now.Month(), now.Day(),
0, 0, 0, 0, loc).AddDate(0, 0, -1)` and
`archiveEndTime = archiveStartTime.AddDate(0, 0, 1).Add(-time.Second)`.
In dev mode: `(now.AddDate(0, 0, -1), now)`. -/
def newConversationArchiveWindow (devMode : Bool) (now : CivilDateTime) :
    CivilDateTime × CivilDateTime :=
  if !devMode then
    let archiveStartTime : CivilDateTime :=
      { Date := prevDay now.Date, Hour := 0, Minute := 0, Second := 0 }
    let archiveEndTime :=
      subOneSecond
        { Date := nextDay archiveStartTime.Date, Hour := 0, Minute := 0, Second := 0 }
    (archiveStartTime, archiveEndTime)
  else
    ({ now with Date := prevDay now.Date }, now)

/-- The conversation variants of src/app/conversations.go as a sum type:
`ChannelConversation`, `PrivateChannelConversation`,
`DirectMessageConversation` (IM record plus resolved peer user) and
`MultiPartyDirectMessageConversation` (group record plus resolved member
list). -/
inductive Conversation where
  | channel (channel : SlackChannel)
  | privateChannel (channel : SlackChannel)
  | dm (im : SlackChannel) (user : SlackUser)
  | mpdm (mpim : SlackChannel) (users : List SlackUser)
deriving DecidableEq

/-- `ToRef` of each variant (src/app/conversations.go, lines 57-59, 94-96,
134-136, 185-187): a pure projection to the `(type, id)` pair. -/
def ToRef : Conversation → String × String
  | .channel channel => ("channel", channel.ID)
  | .privateChannel channel => ("private-channel", channel.ID)
  | .dm im _ => ("dm", im.ID)
  | .mpdm mpim _ => ("mpdm-group", mpim.ID)

/-- The member-resolution loop of
`MultiPartyDirectMessageConversation.loadUsersWithLookup`
(src/app/conversations.go, lines 218-228): skips the authenticated user's
own id, resolves the rest through the lookup cache, fails on the first
resolution error. -/
def lookupMembers (c : SlackClient) (selfId : String) :
    List String → UsersById → Option (List SlackUser)
  | [], _ => some []
  | userId :: rest, st =>
    if userId = selfId then lookupMembers c selfId rest st
    else
      match GetUser c st userId with
      | (none, _) => none
      | (some user, st2) =>
        (lookupMembers c selfId rest st2).map (fun users => user :: users)

/-- `MultiPartyDirectMessageConversation.loadUsers`
(src/app/conversations.go, lines 198-231). -/
def loadUsers (c : SlackClient) (mpimId : String) : Option (List SlackUser) :=
  (newUserLookup c).bind (fun st =>
    c.AuthTest.bind (fun authTest =>
      (c.GetUsersInConversation mpimId).bind (fun members =>
        lookupMembers c authTest.UserID members st)))

/-- `getConversationFromRef` (src/app/conversations.go, lines 245-260)
combined with each variant's `InitFromRef`: dispatches on the type string,
fetches the backing record, and for DM / multi-party DM variants resolves
the attached users. -/
def getConversationFromRef (conversationType : String) (ref : String)
    (c : SlackClient) : Except String Conversation :=
  if conversationType = "channel" then
    match c.GetConversationInfo ref with
    | some channel => .ok (.channel channel)
    | none => .error "upstream fetch failed"
  else if conversationType = "private-channel" then
    match c.GetConversationInfo ref with
    | some channel => .ok (.privateChannel channel)
    | none => .error "upstream fetch failed"
  else if conversationType = "dm" then
    match c.GetConversationInfo ref with
    | some im =>
      match c.GetUserInfo im.User with
      | some user => .ok (.dm im user)
      | none => .error "could not look up user for DM"
    | none => .error "upstream fetch failed"
  else if conversationType = "mpdm-group" then
    match c.GetConversationInfo ref with
    | some mpim =>
      match loadUsers c mpim.ID with
      | some users => .ok (.mpdm mpim users)
      | none => .error "upstream fetch failed"
    | none => .error "upstream fetch failed"
  else .error ("Unknown conversation type: " ++ conversationType)

/-- Go `strings.Split(text, "\n")` on character lists: always at least one
(possibly empty) line. -/
def splitLines : List Char → List (List Char)
  | [] => [[]]
  | ch :: rest =>
    match splitLines rest with
    | [] => [[]]
    | line :: lines =>
      if ch = '\n' then [] :: line :: lines else (ch :: line) :: lines

def ellipsis : List Char := ['.', '.', '.']

/-- The character-truncation step of `textToHtml`
(src/app/messages.go, lines 105-107): when truncating, a text longer than
700 characters is clipped to its first 700 characters plus "...". -/
def truncateTextChars (text : List Char) (truncate : Bool) : List Char :=
  if truncate ∧ text.length > 700 then text.take 700 ++ ellipsis else text

/-- The line-truncation step of `textToHtml`
(src/app/messages.go, lines 108-111): when truncating, more than 5 lines
are clipped to the first 5 plus a trailing "..." line. -/
def truncateLines (lines : List (List Char)) (truncate : Bool) :
    List (List Char) :=
  if truncate ∧ lines.length > 5 then lines.take 5 ++ [ellipsis] else lines

/-- The list of lines that `textToHtml` renders. -/
def textToHtmlLines (text : List Char) (truncate : Bool) : List (List Char) :=
  truncateLines (splitLines (truncateTextChars text truncate)) truncate

def blockquotePrefix1 : List Char := "&gt;".toList

def blockquotePrefix2 : List Char := ">>>".toList

/-- Go `strings.TrimPrefix`. -/
def trimPre (pre line : List Char) : List Char :=
  if pre.isPrefixOf line then line.drop pre.length else line

/-- Per-line rendering of `textToHtml` (src/app/messages.go, lines
115-197): blockquote wrapping with a zero-width-space placeholder for empty
quoted lines, a `<br>` suffix for non-first plain lines.  The two inline
regexp substitutions (control tokens and emoji shortcodes) and the `Style`
table are abstracted as the parameters `substitute` and `style`; the
truncation claim holds for every choice of them. -/
def renderLine (style : String → List Char)
    (substitute : List Char → List Char) (i : Nat) (line : List Char) :
    List Char :=
  if blockquotePrefix1.isPrefixOf line ∨ blockquotePrefix2.isPrefixOf line then
    let line2 := trimPre blockquotePrefix2 (trimPre blockquotePrefix1 line)
    let line3 := if line2 = [] then [Char.ofNat 0x200B] else line2
    "<blockquote style='".toList ++ style "message.blockquote" ++ "'>".toList
      ++ substitute line3 ++ "</blockquote>".toList
  else
    substitute line ++ (if i ≠ 0 then "<br>".toList else [])

/-- `textToHtml` (src/app/messages.go, lines 104-199) as a pipeline:
truncate, split into lines, render each line, concatenate. -/
def textToHtml (style : String → List Char)
    (substitute : List Char → List Char) (text : List Char)
    (truncate : Bool) : List Char :=
  ((textToHtmlLines text truncate).enum.map
    (fun p => renderLine style substitute p.1 p.2)).flatten

/-!
Model of `FileUrlRef.Encode` / `DecodeFileUrlRef` (src/app/files.go).
Go strings and byte slices are modelled as `List Nat` with each element a
byte value (< 256).  The AES block cipher is a parameter
`E : List Nat → List Nat` mapping a 16-byte block to a 16-byte block; the
CFB construction and the round-trip property hold for every such `E`.
The JSON layer models `encoding/json` byte-exactly for field contents that
are valid UTF-8 (Go replaces invalid UTF-8 and additionally escapes
U+2028/U+2029; both are outside the model).
-/

/-- `FileUrlRef` (src/app/files.go, lines 15-18), fields as byte strings. -/
structure FileUrlRef where
  FileId : List Nat
  SlackUserId : List Nat
deriving DecidableEq

def asciiBytes (s : String) : List Nat := s.toList.map Char.toNat

def hexDigit (n : Nat) : Nat := if n < 10 then 48 + n else 87 + n

def hexVal (b : Nat) : Option Nat :=
  if 48 ≤ b ∧ b ≤ 57 then some (b - 48)
  else if 97 ≤ b ∧ b ≤ 102 then some (b - 87)
  else if 65 ≤ b ∧ b ≤ 70 then some (b - 55)
  else none

/-- Byte-level model of Go `encoding/json` string escaping. -/
def escapeByte (b : Nat) : List Nat :=
  if b = 34 then [92, 34]
  else if b = 92 then [92, 92]
  else if b = 10 then [92, 110]
  else if b = 13 then [92, 114]
  else if b = 9 then [92, 116]
  else if b < 32 ∨ b = 60 ∨ b = 62 ∨ b = 38 then
    [92, 117, 48, 48, hexDigit (b / 16), hexDigit (b % 16)]
  else [b]

def escapeString (s : List Nat) : List Nat := (s.map escapeByte).flatten

def jsonHead : List Nat := 123 :: asciiBytes "\"FileId\":\""

def jsonMid : List Nat := asciiBytes ",\"SlackUserId\":\""

/-- `json.Marshal` of a `FileUrlRef`. -/
def jsonMarshalFileUrlRef (f : FileUrlRef) : List Nat :=
  jsonHead ++ escapeString f.FileId ++ [34] ++ jsonMid
    ++ escapeString f.SlackUserId ++ [34, 125]

/-- JSON string-body parser: consumes the escaped content and the closing
quote, returning the unescaped bytes and the remainder. -/
def parseJsonStringBody (bytes : List Nat) : Option (List Nat × List Nat) :=
  match bytes with
  | [] => none
  | b :: rest =>
    if b = 34 then some ([], rest)
    else if b = 92 then
      match rest with
      | [] => none
      | e :: r =>
        if e = 34 then (parseJsonStringBody r).map (fun p => (34 :: p.1, p.2))
        else if e = 92 then (parseJsonStringBody r).map (fun p => (92 :: p.1, p.2))
        else if e = 110 then (parseJsonStringBody r).map (fun p => (10 :: p.1, p.2))
        else if e = 114 then (parseJsonStringBody r).map (fun p => (13 :: p.1, p.2))
        else if e = 116 then (parseJsonStringBody r).map (fun p => (9 :: p.1, p.2))
        else if e = 117 then
          match r with
          | h1 :: h2 :: h3 :: h4 :: r2 =>
            match hexVal h1, hexVal h2, hexVal h3, hexVal h4 with
            | some v1, some v2, some v3, some v4 =>
              let v := ((v1 * 16 + v2) * 16 + v3) * 16 + v4
              if v < 128 then
                (parseJsonStringBody r2).map (fun p => (v :: p.1, p.2))
              else none
            | _, _, _, _ => none
          | _ => none
        else none
    else if b < 32 then none
    else (parseJsonStringBody rest).map (fun p => (b :: p.1, p.2))
termination_by bytes.length
decreasing_by all_goals simp_wf <;> omega

def expectBytes (pre s : List Nat) : Option (List Nat) :=
  if pre.isPrefixOf s then some (s.drop pre.length) else none

/-- `json.Unmarshal` into a `FileUrlRef`, on the grammar `json.Marshal`
emits for it (no interior whitespace, fields in declaration order). -/
def jsonUnmarshalFileUrlRef (bytes : List Nat) : Option FileUrlRef :=
  match expectBytes jsonHead bytes with
  | none => none
  | some s1 =>
    match parseJsonStringBody s1 with
    | none => none
    | some (fileId, s2) =>
      match expectBytes jsonMid s2 with
      | none => none
      | some s3 =>
        match parseJsonStringBody s3 with
        | none => none
        | some (slackUserId, s4) =>
          if s4 = [125] then
            some { FileId := fileId, SlackUserId := slackUserId }
          else none

/-- Pointwise XOR, stopping at the shorter list (how a keystream block is
applied to a plaintext chunk). -/
def xorBytes : List Nat → List Nat → List Nat
  | [], _ => []
  | _, [] => []
  | a :: as2, b :: bs => (a ^^^ b) :: xorBytes as2 bs

/-- Go `cipher.NewCFBEncrypter(block, iv).XORKeyStream`: each 16-byte
plaintext chunk is XORed with `E` of the previous ciphertext block (the IV
for the first chunk). -/
def cfbEncrypt (E : List Nat → List Nat) (iv : List Nat) (pt : List Nat) :
    List Nat :=
  if pt = [] then []
  else
    let cchunk := xorBytes (pt.take 16) (E iv)
    cchunk ++ cfbEncrypt E cchunk (pt.drop 16)
termination_by pt.length
decreasing_by
  simp_wf
  rename_i h
  have : pt.length ≠ 0 := fun h0 => h (List.length_eq_zero.1 h0)
  omega

/-- Go `cipher.NewCFBDecrypter(block, iv).XORKeyStream`. -/
def cfbDecrypt (E : List Nat → List Nat) (iv : List Nat) (ct : List Nat) :
    List Nat :=
  if ct = [] then []
  else
    let chunk := ct.take 16
    xorBytes chunk (E iv) ++ cfbDecrypt E chunk (ct.drop 16)
termination_by ct.length
decreasing_by
  simp_wf
  rename_i h
  have : ct.length ≠ 0 := fun h0 => h (List.length_eq_zero.1 h0)
  omega

/-- RFC 4648 URL-safe base64 alphabet, as byte values. -/
def base64UrlChar (n : Nat) : Nat :=
  if n < 26 then 65 + n
  else if n < 52 then 97 + (n - 26)
  else if n < 62 then 48 + (n - 52)
  else if n = 62 then 45
  else 95

def base64UrlIndex (b : Nat) : Option Nat :=
  if 65 ≤ b ∧ b ≤ 90 then some (b - 65)
  else if 97 ≤ b ∧ b ≤ 122 then some (b - 97 + 26)
  else if 48 ≤ b ∧ b ≤ 57 then some (b - 48 + 52)
  else if b = 45 then some 62
  else if b = 95 then some 63
  else none

/-- Go `base64.URLEncoding.EncodeToString` (padded). -/
def base64UrlEncode : List Nat → List Nat
  | [] => []
  | [b1] => [base64UrlChar (b1 / 4), base64UrlChar (b1 % 4 * 16), 61, 61]
  | [b1, b2] =>
    [base64UrlChar (b1 / 4), base64UrlChar (b1 % 4 * 16 + b2 / 16),
     base64UrlChar (b2 % 16 * 4), 61]
  | b1 :: b2 :: b3 :: rest =>
    base64UrlChar (b1 / 4) :: base64UrlChar (b1 % 4 * 16 + b2 / 16) ::
    base64UrlChar (b2 % 16 * 4 + b3 / 64) :: base64UrlChar (b3 % 64) ::
    base64UrlEncode rest

/-- Go `base64.URLEncoding.DecodeString` (padded; errors on characters
outside the alphabet, padding before the end, or a length that is not a
multiple of four). -/
def base64UrlDecode : List Nat → Option (List Nat)
  | [] => some []
  | c1 :: c2 :: c3 :: c4 :: rest =>
    match base64UrlIndex c1, base64UrlIndex c2 with
    | some v1, some v2 =>
      if c3 = 61 then
        if c4 = 61 then
          if rest = [] then some [v1 * 4 + v2 / 16] else none
        else none
      else
        match base64UrlIndex c3 with
        | some v3 =>
          if c4 = 61 then
            if rest = [] then some [v1 * 4 + v2 / 16, v2 % 16 * 16 + v3 / 4]
            else none
          else
            match base64UrlIndex c4 with
            | some v4 =>
              (base64UrlDecode rest).map
                (fun bs => (v1 * 4 + v2 / 16) :: (v2 % 16 * 16 + v3 / 4) ::
                  (v3 % 4 * 64 + v4) :: bs)
            | none => none
        | none => none
    | _, _ => none
  | _ => none

/-- `FileUrlRef.Encode` (src/app/files.go, lines 42-61): marshal to JSON,
prepend the 16-byte random IV, CFB-encrypt the body, base64url-encode.
The random IV is passed in as `iv`. -/
def fileUrlRefEncode (E : List Nat → List Nat) (iv : List Nat)
    (f : FileUrlRef) : List Nat :=
  base64UrlEncode (iv ++ cfbEncrypt E iv (jsonMarshalFileUrlRef f))

/-- `DecodeFileUrlRef` (src/app/files.go, lines 63-84): base64url-decode,
reject ciphertexts of at most one block, split off the IV, CFB-decrypt,
JSON-unmarshal.  Every failure is an error value, never a panic. -/
def fileUrlRefDecode (E : List Nat → List Nat) (encoded : List Nat) :
    Except String FileUrlRef :=
  match base64UrlDecode encoded with
  | none => .error "base64 decode failed"
  | some ciphertext =>
    if ciphertext.length ≤ 16 then .error "malformed encrypted FileUrlRef"
    else
      match jsonUnmarshalFileUrlRef
          (cfbDecrypt E (ciphertext.take 16) (ciphertext.drop 16)) with
      | none => .error "json unmarshal failed"
      | some f => .ok f

/-- A failed `GetUser` call leaves the cache unchanged. -/
theorem getUser_none_state (c : SlackClient) (st : UsersById) (id : String)
    (h : (GetUser c st id).1 = none) : GetUser c st id = (none, st) := by
  unfold GetUser at h ⊢
  cases hm : mapLookup st id with
  | some u => simp [hm] at h
  | none =>
    cases hb : (if id.startsWith "B" then c.GetBotInfo id else none) with
    | some bot => simp [hm, hb] at h
    | none =>
      cases hu : c.GetUserInfo id with
      | some u => simp [hm, hb, hu] at h
      | none => simp [hm, hb, hu]

/-- Fallback level 1: a successful cache-or-fetch of the primary user id wins. -/
theorem getUserForMessage_primary (c : SlackClient) (st : UsersById)
    (m : SlackMessage) (u : SlackUser) (h : m.User ≠ "")
    (hg : (GetUser c st m.User).1 = some u) :
    (GetUserForMessage c st m).1 = some u := by
  rcases hG : GetUser c st m.User with ⟨r1, st1⟩
  rw [hG] at hg
  simp only at hg
  subst hg
  unfold GetUserForMessage
  rw [if_pos h, hG]

/-- Fallback level 2: when the primary id is absent or fails, a successful
cache-or-fetch of the bot id wins. -/
theorem getUserForMessage_bot (c : SlackClient) (st : UsersById)
    (m : SlackMessage) (u : SlackUser)
    (hu : m.User = "" ∨ (GetUser c st m.User).1 = none) (h : m.BotID ≠ "")
    (hg : (GetUser c st m.BotID).1 = some u) :
    (GetUserForMessage c st m).1 = some u := by
  have step1 : (if m.User ≠ "" then GetUser c st m.User else (none, st)) = (none, st) := by
    rcases hu with hu | hu
    · rw [if_neg (by simp [hu])]
    · by_cases huser : m.User ≠ ""
      · rw [if_pos huser, getUser_none_state c st m.User hu]
      · rw [if_neg huser]
  unfold GetUserForMessage
  rw [step1]
  dsimp only
  rw [if_pos h]
  rcases hG : GetUser c st m.BotID with ⟨r2, st2⟩
  rw [hG] at hg
  simp only at hg
  subst hg
  rfl

/-- After the first two fallback levels fail, the cache is still `st` and
control reaches the username handling with state `st`. -/
theorem getUserForMessage_tail (c : SlackClient) (st : UsersById)
    (m : SlackMessage)
    (hu : m.User = "" ∨ (GetUser c st m.User).1 = none)
    (hb : m.BotID = "" ∨ (GetUser c st m.BotID).1 = none) :
    GetUserForMessage c st m =
      (if m.Username ≠ "" then
        match GetUserByName st m.Username with
        | some u => (some u, st)
        | none => (some (newSyntheticUser m.Username), st)
      else if m.User ≠ "" then (some (newSyntheticUser m.User), st)
      else if m.BotID ≠ "" then (some (newSyntheticBotUser m.BotID), st)
      else (none, st)) := by
  unfold GetUserForMessage
  have step1 : (if m.User ≠ "" then GetUser c st m.User else (none, st)) = (none, st) := by
    rcases hu with hu | hu
    · rw [if_neg (by simp [hu])]
    · by_cases huser : m.User ≠ ""
      · rw [if_pos huser, getUser_none_state c st m.User hu]
      · rw [if_neg huser]
  rw [step1]
  dsimp only
  have step2 : (if m.BotID ≠ "" then GetUser c st m.BotID else (none, st)) = (none, st) := by
    rcases hb with hb | hb
    · rw [if_neg (by simp [hb])]
    · by_cases hbot : m.BotID ≠ ""
      · rw [if_pos hbot, getUser_none_state c st m.BotID hb]
      · rw [if_neg hbot]
  rw [step2]

/-- C1: For every message that has at least one non-empty identifying field
among primary user id, bot id and literal username, `GetUserForMessage`
returns some displayable user (never `none`), trying the fallbacks in the
stated order: primary id via cache-or-fetch, then bot id via cache-or-fetch,
then case-insensitive name match against the already-cached users, then a
synthesized placeholder identity from the username, then a synthesized
placeholder identity from whichever raw id was present. -/
theorem getUserForMessage_fallback_chain
    (c : SlackClient) (st : UsersById) (m : SlackMessage) :
    ((m.User ≠ "" ∨ m.BotID ≠ "" ∨ m.Username ≠ "") →
        ((GetUserForMessage c st m).1).isSome) ∧
    (∀ u, m.User ≠ "" → (GetUser c st m.User).1 = some u →
        (GetUserForMessage c st m).1 = some u) ∧
    (∀ u, (m.User = "" ∨ (GetUser c st m.User).1 = none) → m.BotID ≠ "" →
        (GetUser c st m.BotID).1 = some u →
        (GetUserForMessage c st m).1 = some u) ∧
    (∀ u, (m.User = "" ∨ (GetUser c st m.User).1 = none) →
        (m.BotID = "" ∨ (GetUser c st m.BotID).1 = none) → m.Username ≠ "" →
        GetUserByName st m.Username = some u →
        (GetUserForMessage c st m).1 = some u) ∧
    ((m.User = "" ∨ (GetUser c st m.User).1 = none) →
        (m.BotID = "" ∨ (GetUser c st m.BotID).1 = none) → m.Username ≠ "" →
        GetUserByName st m.Username = none →
        (GetUserForMessage c st m).1 = some (newSyntheticUser m.Username)) ∧
    ((GetUser c st m.User).1 = none → m.User ≠ "" →
        (m.BotID = "" ∨ (GetUser c st m.BotID).1 = none) → m.Username = "" →
        (GetUserForMessage c st m).1 = some (newSyntheticUser m.User)) ∧
    (m.User = "" → (GetUser c st m.BotID).1 = none → m.BotID ≠ "" →
        m.Username = "" →
        (GetUserForMessage c st m).1 = some (newSyntheticBotUser m.BotID)) := by
  refine ⟨?_, ?_, ?_, ?_, ?_, ?_, ?_⟩
  · intro h
    by_cases hUser : m.User ≠ ""
    · cases hg1 : (GetUser c st m.User).1 with
      | some u => rw [getUserForMessage_primary c st m u hUser hg1]; rfl
      | none =>
        by_cases hBot : m.BotID ≠ ""
        · cases hg2 : (GetUser c st m.BotID).1 with
          | some u => rw [getUserForMessage_bot c st m u (Or.inr hg1) hBot hg2]; rfl
          | none =>
            rw [getUserForMessage_tail c st m (Or.inr hg1) (Or.inr hg2)]
            by_cases hName : m.Username ≠ ""
            · rw [if_pos hName]
              cases hgn : GetUserByName st m.Username <;> simp [hgn]
            · rw [if_neg hName]
              rw [if_pos hUser]
              rfl
        · have hb0 : m.BotID = "" := by simpa using hBot
          rw [getUserForMessage_tail c st m (Or.inr hg1) (Or.inl hb0)]
          by_cases hName : m.Username ≠ ""
          · rw [if_pos hName]
            cases hgn : GetUserByName st m.Username <;> simp [hgn]
          · rw [if_neg hName]
            rw [if_pos hUser]
            rfl
    · have hu0 : m.User = "" := by simpa using hUser
      by_cases hBot : m.BotID ≠ ""
      · cases hg2 : (GetUser c st m.BotID).1 with
        | some u => rw [getUserForMessage_bot c st m u (Or.inl hu0) hBot hg2]; rfl
        | none =>
          rw [getUserForMessage_tail c st m (Or.inl hu0) (Or.inr hg2)]
          by_cases hName : m.Username ≠ ""
          · rw [if_pos hName]
            cases hgn : GetUserByName st m.Username <;> simp [hgn]
          · rw [if_neg hName]
            rw [if_neg (by simp [hu0]), if_pos hBot]
            rfl
      · have hb0 : m.BotID = "" := by simpa using hBot
        have hName : m.Username ≠ "" := by
          rcases h with h | h | h
          · exact absurd h hUser
          · exact absurd h hBot
          · exact h
        rw [getUserForMessage_tail c st m (Or.inl hu0) (Or.inl hb0)]
        rw [if_pos hName]
        cases hgn : GetUserByName st m.Username <;> simp [hgn]
  · intro u h hg
    exact getUserForMessage_primary c st m u h hg
  · intro u hu h hg
    exact getUserForMessage_bot c st m u hu h hg
  · intro u hu hb h hg
    rw [getUserForMessage_tail c st m hu hb, if_pos h, hg]
  · intro hu hb h hg
    rw [getUserForMessage_tail c st m hu hb, if_pos h, hg]
  · intro hfail h hb hn
    rw [getUserForMessage_tail c st m (Or.inr hfail) hb,
      if_neg (by simp [hn]), if_pos h]
  · intro hu hfail h hn
    rw [getUserForMessage_tail c st m (Or.inl hu) (Or.inr hfail),
      if_neg (by simp [hn]), if_neg (by simp [hu]), if_pos h]

/-- Witness for C1: a message carrying only a literal username resolves to
some user even against an empty directory. -/
theorem getUserForMessage_fallback_chain_witness :
    ((GetUserForMessage {} [] { Username := "bob" }).1).isSome :=
  (getUserForMessage_fallback_chain {} [] { Username := "bob" }).1
    (Or.inr (Or.inr (by decide)))

/-- Evaluation of `shouldContainMessage` on a same-author message. -/
theorem shouldContainMessage_same_author (mg : MessageGroup) (m : SlackMessage)
    (u : SlackUser) (last : SlackMessage) (hid : u.ID = mg.Author.ID)
    (hlast : mg.Messages.getLast? = some last) :
    shouldContainMessage mg m u =
      if TimestampTime m - TimestampTime last > 10 * 60 then false else true := by
  unfold shouldContainMessage
  rw [if_neg (by simp [hid]), hlast]

/-- C2: For two consecutive non-hidden messages with the same resolved
author, `groupMessages` starts a new group exactly when the timestamp gap
exceeds 10 minutes (600 seconds): a 601-second gap splits, a 600-second gap
does not.  The gap is measured against the last message already appended to
the group, not the group head: three same-author messages with consecutive
gaps of at most 600 seconds stay in one group even when the third message is
more than 600 seconds after the first. -/
theorem groupMessages_ten_minute_window (c : SlackClient) (st0 : UsersById)
    (hlk : newUserLookup c = some st0) :
    (∀ m1 m2 u1 u2 st1 st2,
      m1.Hidden = false → m2.Hidden = false →
      GetUserForMessage c st0 m1 = (some u1, st1) →
      GetUserForMessage c st1 m2 = (some u2, st2) →
      u2.ID = u1.ID →
      groupMessages c [m1, m2] =
        some (if TimestampTime m2 - TimestampTime m1 > 600 then
          [{ Messages := [m1], Author := u1 }, { Messages := [m2], Author := u2 }]
        else
          [{ Messages := [m1, m2], Author := u1 }])) ∧
    (∀ m1 m2 m3 u1 u2 u3 st1 st2 st3,
      m1.Hidden = false → m2.Hidden = false → m3.Hidden = false →
      GetUserForMessage c st0 m1 = (some u1, st1) →
      GetUserForMessage c st1 m2 = (some u2, st2) →
      GetUserForMessage c st2 m3 = (some u3, st3) →
      u2.ID = u1.ID → u3.ID = u1.ID →
      TimestampTime m2 - TimestampTime m1 ≤ 600 →
      TimestampTime m3 - TimestampTime m2 ≤ 600 →
      TimestampTime m3 - TimestampTime m1 > 600 →
      groupMessages c [m1, m2, m3] =
        some [{ Messages := [m1, m2, m3], Author := u1 }]) := by
  constructor
  · intro m1 m2 u1 u2 st1 st2 h1 h2 hr1 hr2 hid
    have hshould : shouldContainMessage { Messages := [m1], Author := u1 } m2 u2
        = if TimestampTime m2 - TimestampTime m1 > 600 then false else true := by
      rw [shouldContainMessage_same_author _ _ _ m1 hid (by rfl)]
      norm_num
    unfold groupMessages
    rw [hlk]
    simp only [Option.map_some']
    unfold groupMessagesLoop
    rw [hr1]
    simp only [h1, Bool.false_eq_true, if_false]
    unfold groupMessagesLoop
    rw [hr2]
    simp only [h2, Bool.false_eq_true, if_false, hshould]
    by_cases hgap : TimestampTime m2 - TimestampTime m1 > 600
    · simp only [hgap, if_pos, if_true, Bool.false_eq_true, if_false]
      unfold groupMessagesLoop
      simp
    · simp only [hgap, if_neg, if_false, if_true]
      unfold groupMessagesLoop
      simp
  · intro m1 m2 m3 u1 u2 u3 st1 st2 st3 h1 h2 h3 hr1 hr2 hr3 hid2 hid3 hg12 hg23 hg13
    have hshould2 : shouldContainMessage { Messages := [m1], Author := u1 } m2 u2 = true := by
      rw [shouldContainMessage_same_author _ _ _ m1 hid2 (by rfl)]
      rw [if_neg (by omega)]
    have hshould3 : shouldContainMessage { Messages := [m1, m2], Author := u1 } m3 u3 = true := by
      rw [shouldContainMessage_same_author _ _ _ m2 hid3 (by rfl)]
      rw [if_neg (by omega)]
    unfold groupMessages
    rw [hlk]
    simp only [Option.map_some']
    unfold groupMessagesLoop
    rw [hr1]
    simp only [h1, Bool.false_eq_true, if_false]
    unfold groupMessagesLoop
    rw [hr2]
    simp only [h2, Bool.false_eq_true, if_false, hshould2, if_true]
    unfold groupMessagesLoop
    rw [hr3]
    simp only [h3, Bool.false_eq_true, if_false]
    simp only [List.append_eq, List.cons_append, List.nil_append, hshould3, if_true]
    unfold groupMessagesLoop
    simp

/-- Witness for C2: a 600-second gap between two messages of the same user
keeps them in one group. -/
theorem groupMessages_ten_minute_window_witness :
    groupMessages { GetUsers := some [{ ID := "U1", Name := "alice" }] }
        [{ User := "U1", Timestamp := "1000" }, { User := "U1", Timestamp := "1600" }] =
      some (if TimestampTime { User := "U1", Timestamp := "1600" }
              - TimestampTime { User := "U1", Timestamp := "1000" } > 600 then
        [{ Messages := [{ User := "U1", Timestamp := "1000" }],
           Author := { ID := "U1", Name := "alice" } },
         { Messages := [{ User := "U1", Timestamp := "1600" }],
           Author := { ID := "U1", Name := "alice" } }]
      else
        [{ Messages := [{ User := "U1", Timestamp := "1000" },
                        { User := "U1", Timestamp := "1600" }],
           Author := { ID := "U1", Name := "alice" } }]) :=
  (groupMessages_ten_minute_window
      { GetUsers := some [{ ID := "U1", Name := "alice" }] }
      [("U1", { ID := "U1", Name := "alice" })] (by decide)).1
    { User := "U1", Timestamp := "1000" } { User := "U1", Timestamp := "1600" }
    { ID := "U1", Name := "alice" } { ID := "U1", Name := "alice" }
    [("U1", { ID := "U1", Name := "alice" })] [("U1", { ID := "U1", Name := "alice" })]
    (by decide) (by decide) (by decide) (by decide) (by decide)

/-- The grouping loop sees exactly the hidden-filtered input: a hidden
message is skipped before the author lookup, so it changes neither the
groups nor the lookup cache. -/
theorem groupMessagesLoop_filter_hidden (c : SlackClient)
    (messages : List SlackMessage) :
    ∀ currentGroup groups st,
      groupMessagesLoop c messages currentGroup groups st =
        groupMessagesLoop c (messages.filter (fun m => !m.Hidden))
          currentGroup groups st := by
  induction messages with
  | nil => intro cur acc st; rfl
  | cons m rest ih =>
    intro cur acc st
    by_cases h : m.Hidden
    · have hf : (m :: rest).filter (fun m => !m.Hidden)
          = rest.filter (fun m => !m.Hidden) := by
        simp [List.filter_cons, h]
      rw [hf]
      show (if m.Hidden = true then groupMessagesLoop c rest cur acc st else _) = _
      rw [if_pos h]
      exact ih cur acc st
    · have hm : m.Hidden = false := by simpa using h
      have hf : (m :: rest).filter (fun m => !m.Hidden)
          = m :: rest.filter (fun m => !m.Hidden) := by
        simp [List.filter_cons, hm]
      rw [hf]
      unfold groupMessagesLoop
      simp only [hm, Bool.false_eq_true, if_false]
      rcases hr : GetUserForMessage c st m with ⟨r, st2⟩
      cases r with
      | none => exact ih cur acc st2
      | some author =>
        cases cur with
        | none => exact ih _ acc st2
        | some mg =>
          by_cases hs : shouldContainMessage mg m author
          · simp only [hs, if_true]
            exact ih _ acc st2
          · simp only [hs, Bool.false_eq_true, if_false]
            exact ih _ _ st2

/-- No group produced by the grouping loop ever contains a hidden message,
given that the accumulator and the current group are hidden-free. -/
theorem groupMessagesLoop_not_hidden (c : SlackClient)
    (messages : List SlackMessage) :
    ∀ currentGroup groups st,
      (∀ g ∈ groups, ∀ m ∈ g.Messages, m.Hidden = false) →
      (∀ mg, currentGroup = some mg → ∀ m ∈ mg.Messages, m.Hidden = false) →
      ∀ g ∈ groupMessagesLoop c messages currentGroup groups st,
        ∀ m ∈ g.Messages, m.Hidden = false := by
  induction messages with
  | nil =>
    intro cur acc st hacc hcur g hg
    unfold groupMessagesLoop at hg
    rcases List.mem_append.1 hg with hg | hg
    · exact hacc g hg
    · cases cur with
      | none => simp at hg
      | some mg =>
        simp only [Option.toList_some, List.mem_singleton] at hg
        subst hg
        exact hcur g rfl
  | cons m rest ih =>
    intro cur acc st hacc hcur g hg
    by_cases h : m.Hidden
    · rw [show groupMessagesLoop c (m :: rest) cur acc st
          = groupMessagesLoop c rest cur acc st by
        show (if m.Hidden = true then _ else _) = _
        rw [if_pos h]] at hg
      exact ih cur acc st hacc hcur g hg
    · have hm : m.Hidden = false := by simpa using h
      unfold groupMessagesLoop at hg
      simp only [hm, Bool.false_eq_true, if_false] at hg
      rcases hr : GetUserForMessage c st m with ⟨r, st2⟩
      rw [hr] at hg
      cases r with
      | none => exact ih cur acc st2 hacc hcur g hg
      | some author =>
        cases cur with
        | none =>
          refine ih _ acc st2 hacc ?_ g hg
          intro mg hmg mm hmm
          injection hmg with hmg
          subst hmg
          simp only [List.mem_singleton] at hmm
          subst hmm
          exact hm
        | some mg =>
          by_cases hs : shouldContainMessage mg m author
          · simp only [hs, if_true] at hg
            refine ih _ acc st2 hacc ?_ g hg
            intro mg2 hmg2 mm hmm
            injection hmg2 with hmg2
            subst hmg2
            simp only [List.mem_append, List.mem_singleton] at hmm
            rcases hmm with hmm | hmm
            · exact hcur mg rfl mm hmm
            · subst hmm; exact hm
          · simp only [hs, Bool.false_eq_true, if_false] at hg
            refine ih _ _ st2 ?_ ?_ g hg
            · intro g2 hg2 mm hmm
              rcases List.mem_append.1 hg2 with hg2 | hg2
              · exact hacc g2 hg2 mm hmm
              · simp only [List.mem_singleton] at hg2
                subst hg2
                exact hcur g2 rfl mm hmm
            · intro mg2 hmg2 mm hmm
              injection hmg2 with hmg2
              subst hmg2
              simp only [List.mem_singleton] at hmm
              subst hmm
              exact hm

/-- C3: No hidden message appears in any group produced by `groupMessages`,
and hidden messages do not affect the grouping at all: the output equals the
grouping of the input with all hidden messages removed. -/
theorem groupMessages_hidden_invisible (c : SlackClient)
    (messages : List SlackMessage) :
    groupMessages c messages
        = groupMessages c (messages.filter (fun m => !m.Hidden)) ∧
    (∀ gs, groupMessages c messages = some gs →
      ∀ g ∈ gs, ∀ m ∈ g.Messages, m.Hidden = false) := by
  constructor
  · unfold groupMessages
    cases hlk : newUserLookup c with
    | none => rfl
    | some st0 =>
      simp only [Option.map_some']
      rw [groupMessagesLoop_filter_hidden c messages none [] st0]
  · intro gs hgs g hg mm hmm
    unfold groupMessages at hgs
    cases hlk : newUserLookup c with
    | none => rw [hlk] at hgs; cases hgs
    | some st0 =>
      rw [hlk] at hgs
      simp only [Option.map_some', Option.some_inj] at hgs
      subst hgs
      exact groupMessagesLoop_not_hidden c messages none [] st0
        (by intro g2 hg2; cases hg2) (by intro mg hmg; cases hmg) g hg mm hmm

/-- Witness for C3: a visible message of a known user forms one group with
no hidden member. -/
theorem groupMessages_hidden_invisible_witness :
    ∀ g ∈ [({ Messages := [{ User := "U1", Timestamp := "1000" }],
              Author := { ID := "U1", Name := "alice" } } : MessageGroup)],
      ∀ m ∈ g.Messages, m.Hidden = false :=
  (groupMessages_hidden_invisible
      { GetUsers := some [{ ID := "U1", Name := "alice" }] }
      [{ User := "U1", Timestamp := "1000" },
       { User := "U1", Timestamp := "1200", Hidden := true }]).2
    [{ Messages := [{ User := "U1", Timestamp := "1000" }],
       Author := { ID := "U1", Name := "alice" } }] (by decide)

/-- A message accepted into a group has the group author's ID. -/
theorem shouldContainMessage_true_id (mg : MessageGroup) (m : SlackMessage)
    (u : SlackUser) (h : shouldContainMessage mg m u = true) :
    u.ID = mg.Author.ID := by
  unfold shouldContainMessage at h
  by_cases hid : u.ID ≠ mg.Author.ID
  · rw [if_pos hid] at h; cases h
  · push_neg at hid; exact hid

/-- Inductive invariant of the grouping loop: every emitted group is
non-empty and all its messages resolved (at some cache state of the run) to
a user with the group author's ID. -/
theorem groupMessagesLoop_author_invariant (c : SlackClient)
    (messages : List SlackMessage) :
    ∀ currentGroup groups st,
      (∀ g ∈ groups, g.Messages ≠ [] ∧ ∀ m ∈ g.Messages,
          ∃ stA stB u, GetUserForMessage c stA m = (some u, stB)
            ∧ u.ID = g.Author.ID) →
      (∀ mg, currentGroup = some mg → mg.Messages ≠ [] ∧ ∀ m ∈ mg.Messages,
          ∃ stA stB u, GetUserForMessage c stA m = (some u, stB)
            ∧ u.ID = mg.Author.ID) →
      ∀ g ∈ groupMessagesLoop c messages currentGroup groups st,
        g.Messages ≠ [] ∧ ∀ m ∈ g.Messages,
          ∃ stA stB u, GetUserForMessage c stA m = (some u, stB)
            ∧ u.ID = g.Author.ID := by
  induction messages with
  | nil =>
    intro cur acc st hacc hcur g hg
    unfold groupMessagesLoop at hg
    rcases List.mem_append.1 hg with hg | hg
    · exact hacc g hg
    · cases cur with
      | none => simp at hg
      | some mg =>
        simp only [Option.toList_some, List.mem_singleton] at hg
        subst hg
        exact hcur g rfl
  | cons m rest ih =>
    intro cur acc st hacc hcur g hg
    by_cases h : m.Hidden
    · rw [show groupMessagesLoop c (m :: rest) cur acc st
          = groupMessagesLoop c rest cur acc st by
        show (if m.Hidden = true then _ else _) = _
        rw [if_pos h]] at hg
      exact ih cur acc st hacc hcur g hg
    · have hm : m.Hidden = false := by simpa using h
      unfold groupMessagesLoop at hg
      simp only [hm, Bool.false_eq_true, if_false] at hg
      rcases hr : GetUserForMessage c st m with ⟨r, st2⟩
      rw [hr] at hg
      cases r with
      | none => exact ih cur acc st2 hacc hcur g hg
      | some author =>
        cases cur with
        | none =>
          refine ih _ acc st2 hacc ?_ g hg
          intro mg hmg
          injection hmg with hmg
          subst hmg
          refine ⟨by simp, ?_⟩
          intro mm hmm
          simp only [List.mem_singleton] at hmm
          subst hmm
          exact ⟨st, st2, author, hr, rfl⟩
        | some mg =>
          by_cases hs : shouldContainMessage mg m author
          · simp only [hs, if_true] at hg
            refine ih _ acc st2 hacc ?_ g hg
            intro mg2 hmg2
            injection hmg2 with hmg2
            subst hmg2
            obtain ⟨hne, hall⟩ := hcur mg rfl
            refine ⟨by simp, ?_⟩
            intro mm hmm
            simp only [List.mem_append, List.mem_singleton] at hmm
            rcases hmm with hmm | hmm
            · exact hall mm hmm
            · rw [hmm]
              exact ⟨st, st2, author, hr,
                shouldContainMessage_true_id mg m author hs⟩
          · simp only [hs, Bool.false_eq_true, if_false] at hg
            refine ih _ _ st2 ?_ ?_ g hg
            · intro g2 hg2
              rcases List.mem_append.1 hg2 with hg2 | hg2
              · exact hacc g2 hg2
              · simp only [List.mem_singleton] at hg2
                subst hg2
                exact hcur g2 rfl
            · intro mg2 hmg2
              injection hmg2 with hmg2
              subst hmg2
              refine ⟨by simp, ?_⟩
              intro mm hmm
              simp only [List.mem_singleton] at hmm
              subst hmm
              exact ⟨st, st2, author, hr, rfl⟩

/-- C9: Every group returned by `groupMessages` is non-empty, its author is
fixed at creation, and every message in it resolved under the same
author-resolution function (at a cache state of the run) to a user whose ID
equals the group author's ID; consequently `ConversationArchive.Empty` is
true exactly when the group list is empty. -/
theorem groupMessages_group_invariants (c : SlackClient)
    (messages : List SlackMessage) (gs : List MessageGroup)
    (hgs : groupMessages c messages = some gs) :
    (∀ g ∈ gs, g.Messages ≠ [] ∧ ∀ m ∈ g.Messages,
        ∃ stA stB u, GetUserForMessage c stA m = (some u, stB)
          ∧ u.ID = g.Author.ID) ∧
    (ConversationArchiveEmpty gs = true ↔ gs = []) := by
  have hinv : ∀ g ∈ gs, g.Messages ≠ [] ∧ ∀ m ∈ g.Messages,
      ∃ stA stB u, GetUserForMessage c stA m = (some u, stB)
        ∧ u.ID = g.Author.ID := by
    unfold groupMessages at hgs
    cases hlk : newUserLookup c with
    | none => rw [hlk] at hgs; cases hgs
    | some st0 =>
      rw [hlk] at hgs
      simp only [Option.map_some', Option.some_inj] at hgs
      subst hgs
      exact groupMessagesLoop_author_invariant c messages none [] st0
        (by intro g2 hg2; cases hg2) (by intro mg hmg; cases hmg)
  refine ⟨hinv, ?_, ?_⟩
  · intro hEmp
    cases gs with
    | nil => rfl
    | cons g t =>
      exfalso
      obtain ⟨hne, _⟩ := hinv g (by simp)
      unfold ConversationArchiveEmpty at hEmp
      simp only [Bool.not_eq_true', List.any_eq_false, decide_eq_false_iff_not] at hEmp
      have hlt : ¬ 0 < g.Messages.length := by simpa using hEmp g (by simp)
      have hlen : g.Messages.length ≠ 0 := by
        intro h0
        exact hne (List.length_eq_zero.1 h0)
      omega
  · intro h
    subst h
    rfl

/-- Witness for C9: a single-message archive has one non-empty group and is
not empty. -/
theorem groupMessages_group_invariants_witness :
    (∀ g ∈ [({ Messages := [{ User := "U1", Timestamp := "1000" }],
               Author := { ID := "U1", Name := "alice" } } : MessageGroup)],
        g.Messages ≠ [] ∧ ∀ m ∈ g.Messages,
          ∃ stA stB u,
            GetUserForMessage
                { GetUsers := some [{ ID := "U1", Name := "alice" }] } stA m
              = (some u, stB) ∧ u.ID = g.Author.ID) ∧
    (ConversationArchiveEmpty
        [{ Messages := [{ User := "U1", Timestamp := "1000" }],
           Author := { ID := "U1", Name := "alice" } }] = true ↔
      [({ Messages := [{ User := "U1", Timestamp := "1000" }],
          Author := { ID := "U1", Name := "alice" } } : MessageGroup)] = []) :=
  groupMessages_group_invariants
    { GetUsers := some [{ ID := "U1", Name := "alice" }] }
    [{ User := "U1", Timestamp := "1000" }]
    [{ Messages := [{ User := "U1", Timestamp := "1000" }],
       Author := { ID := "U1", Name := "alice" } }] (by decide)

/-- C10: A message whose raw timestamp string does not parse as a
fixed-point-seconds number gets the zero time value from
`Message.TimestampTime` instead of an error, and such a message still
participates in grouping (with time zero) rather than aborting the
operation. -/
theorem timestampTime_unparsable_returns_zero (m : SlackMessage) :
    (parseFixedPointSeconds m.Timestamp = none →
      TimestampTime m = goZeroTimeUnix) ∧
    (∀ c st0 st1 u, newUserLookup c = some st0 → m.Hidden = false →
      GetUserForMessage c st0 m = (some u, st1) →
      groupMessages c [m] = some [{ Messages := [m], Author := u }]) := by
  constructor
  · intro h
    unfold TimestampTime
    rw [h]
  · intro c st0 st1 u hlk hm hr
    unfold groupMessages
    rw [hlk]
    simp only [Option.map_some']
    unfold groupMessagesLoop
    rw [hr]
    simp only [hm, Bool.false_eq_true, if_false]
    unfold groupMessagesLoop
    simp

/-- Witness for C10: a message with a garbage timestamp gets the zero time
and still lands in a group. -/
theorem timestampTime_unparsable_returns_zero_witness :
    TimestampTime { Username := "bob", Timestamp := "not-a-number" }
        = goZeroTimeUnix ∧
    groupMessages { GetUsers := some [] }
        [{ Username := "bob", Timestamp := "not-a-number" }] =
      some [{ Messages := [{ Username := "bob", Timestamp := "not-a-number" }],
              Author := newSyntheticUser "bob" }] :=
  ⟨(timestampTime_unparsable_returns_zero
        { Username := "bob", Timestamp := "not-a-number" }).1 (by decide),
   (timestampTime_unparsable_returns_zero
        { Username := "bob", Timestamp := "not-a-number" }).2
      { GetUsers := some [] } [] [] (newSyntheticUser "bob")
      (by decide) rfl (by decide)⟩

/-- C4 (evaluation at the failing input): a history page with zero messages
and `HasMore = true` makes the pagination loop evaluate
`history.Messages[len(history.Messages)-1]` and panic with an
index-out-of-range error, instead of terminating as no-more-pages; an empty
page with `HasMore = false` does terminate the loop normally. -/
theorem paginateHistory_empty_page_panics :
    paginateHistory [some { Messages := [], HasMore := true }] "" [] =
        PaginationResult.panic ∧
    paginateHistory
        [some { Messages := [{ User := "U1", Timestamp := "1000" }],
                HasMore := true },
         some { Messages := [], HasMore := true }] "" [] =
      PaginationResult.panic ∧
    paginateHistory [some { Messages := [], HasMore := false }] "" [] =
      PaginationResult.ok [] :=
  ⟨rfl, rfl, rfl⟩

/-- Every month has at least 28 days. -/
theorem daysInMonth_ge (y m : Int) : 28 ≤ daysInMonth y m := by
  unfold daysInMonth
  split
  · split <;> omega
  · split <;> omega

/-- December has 31 days. -/
theorem daysInMonth_december (y : Int) : daysInMonth y 12 = 31 := by
  unfold daysInMonth
  norm_num

/-- The previous day of a valid date is valid. -/
theorem prevDay_valid (d : CivilDate) (h : ValidDate d) :
    ValidDate (prevDay d) := by
  obtain ⟨h1, h2, h3, h4⟩ := h
  unfold prevDay
  by_cases hd : d.Day > 1
  · rw [if_pos hd]
    exact ⟨h1, h2, by simp; omega, by simp; omega⟩
  · rw [if_neg hd]
    by_cases hmth : d.Month > 1
    · rw [if_pos hmth]
      refine ⟨by simp; omega, by simp; omega, ?_, ?_⟩
      · simp only
        have := daysInMonth_ge d.Year (d.Month - 1)
        omega
      · simp only
        exact le_refl _
    · rw [if_neg hmth]
      refine ⟨by norm_num, by norm_num, by norm_num, ?_⟩
      simp only [daysInMonth_december]
      exact le_refl _

/-- Stepping forward then backward one calendar day is the identity on
valid dates. -/
theorem prevDay_nextDay (d : CivilDate) (h : ValidDate d) :
    prevDay (nextDay d) = d := by
  obtain ⟨h1, h2, h3, h4⟩ := h
  unfold nextDay
  by_cases hd : d.Day < daysInMonth d.Year d.Month
  · rw [if_pos hd]
    unfold prevDay
    rw [if_pos (by simp; omega)]
    simp
  · rw [if_neg hd]
    have hdeq : d.Day = daysInMonth d.Year d.Month := by omega
    by_cases hmth : d.Month < 12
    · rw [if_pos hmth]
      unfold prevDay
      rw [if_neg (by norm_num), if_pos (by simp; omega)]
      simp only
      cases d with
      | mk Y M D => simp_all
    · rw [if_neg hmth]
      unfold prevDay
      rw [if_neg (by norm_num), if_neg (by norm_num)]
      have hm12 : d.Month = 12 := by omega
      cases d with
      | mk Y M D =>
        simp only at hm12 hdeq ⊢
        subst hm12
        rw [daysInMonth_december] at hdeq
        simp_all

/-- C5: Outside dev mode, for every account timezone (modelled as a fixed
offset) and every `now`, the archive window is the full previous calendar
day: `StartTime` is yesterday at 00:00:00 local and `EndTime` is today at
00:00:00 local minus one second, i.e. yesterday at 23:59:59 local. -/
theorem newConversationArchiveWindow_previous_day (now : CivilDateTime)
    (h : ValidDate now.Date) :
    newConversationArchiveWindow false now =
      ({ Date := prevDay now.Date, Hour := 0, Minute := 0, Second := 0 },
       { Date := prevDay now.Date, Hour := 23, Minute := 59, Second := 59 }) := by
  unfold newConversationArchiveWindow
  simp only [Bool.not_false, if_true]
  unfold subOneSecond
  rw [if_neg (by norm_num), if_neg (by norm_num), if_neg (by norm_num)]
  simp only
  rw [prevDay_nextDay (prevDay now.Date) (prevDay_valid now.Date h)]

/-- Witness for C5: with now = 2024-03-15 09:00 local, the window is
[2024-03-14 00:00:00, 2024-03-14 23:59:59] local. -/
theorem newConversationArchiveWindow_previous_day_witness :
    newConversationArchiveWindow false
        { Date := { Year := 2024, Month := 3, Day := 15 },
          Hour := 9, Minute := 0, Second := 0 } =
      ({ Date := { Year := 2024, Month := 3, Day := 14 },
         Hour := 0, Minute := 0, Second := 0 },
       { Date := { Year := 2024, Month := 3, Day := 14 },
         Hour := 23, Minute := 59, Second := 59 }) := by
  rw [newConversationArchiveWindow_previous_day
    { Date := { Year := 2024, Month := 3, Day := 15 },
      Hour := 9, Minute := 0, Second := 0 } (by decide)]
  decide

/-- C6: Conversation reconstruction round-trips through `ToRef`: whenever
`getConversationFromRef` succeeds on `(type, ref)`, `ToRef` of the result is
exactly `(type, ref)` (each variant maps back to the type string that
dispatches to it, with the same id), so reconstructing from the projected
pair yields the identical conversation for the same backing entity.  The
hypothesis states the upstream contract that a conversation-info lookup
returns the record with the queried id. -/
theorem getConversationFromRef_roundtrip (c : SlackClient)
    (hID : ∀ r channel, c.GetConversationInfo r = some channel →
      channel.ID = r)
    (conversationType ref : String) (conv : Conversation)
    (h : getConversationFromRef conversationType ref c = .ok conv) :
    ToRef conv = (conversationType, ref) ∧
    getConversationFromRef (ToRef conv).1 (ToRef conv).2 c = .ok conv := by
  have href : ToRef conv = (conversationType, ref) := by
    unfold getConversationFromRef at h
    by_cases h1 : conversationType = "channel"
    · rw [if_pos h1] at h
      cases hch : c.GetConversationInfo ref with
      | none => rw [hch] at h; cases h
      | some channel =>
        rw [hch] at h
        injection h with h
        subst h
        simp [ToRef, h1, hID ref channel hch]
    · rw [if_neg h1] at h
      by_cases h2 : conversationType = "private-channel"
      · rw [if_pos h2] at h
        cases hch : c.GetConversationInfo ref with
        | none => rw [hch] at h; cases h
        | some channel =>
          rw [hch] at h
          injection h with h
          subst h
          simp [ToRef, h2, hID ref channel hch]
      · rw [if_neg h2] at h
        by_cases h3 : conversationType = "dm"
        · rw [if_pos h3] at h
          cases hch : c.GetConversationInfo ref with
          | none => rw [hch] at h; cases h
          | some im =>
            rw [hch] at h
            dsimp only at h
            cases hu : c.GetUserInfo im.User with
            | none => rw [hu] at h; cases h
            | some user =>
              rw [hu] at h
              injection h with h
              subst h
              simp [ToRef, h3, hID ref im hch]
        · rw [if_neg h3] at h
          by_cases h4 : conversationType = "mpdm-group"
          · rw [if_pos h4] at h
            cases hch : c.GetConversationInfo ref with
            | none => rw [hch] at h; cases h
            | some mpim =>
              rw [hch] at h
              dsimp only at h
              cases hl : loadUsers c mpim.ID with
              | none => rw [hl] at h; cases h
              | some users =>
                rw [hl] at h
                injection h with h
                subst h
                simp [ToRef, h4, hID ref mpim hch]
          · rw [if_neg h4] at h
            cases h
  refine ⟨href, ?_⟩
  rw [href]
  exact h

/-- Witness for C6: a channel conversation reconstructed from
`("channel", "C123")` projects back to the same pair and reconstructs to
the identical conversation. -/
theorem getConversationFromRef_roundtrip_witness :
    ToRef (Conversation.channel { ID := "C123", Name := "general" })
        = ("channel", "C123") ∧
    getConversationFromRef
        (ToRef (Conversation.channel { ID := "C123", Name := "general" })).1
        (ToRef (Conversation.channel { ID := "C123", Name := "general" })).2
        { GetConversationInfo := fun r => some { ID := r, Name := "general" } }
      = .ok (.channel { ID := "C123", Name := "general" }) :=
  getConversationFromRef_roundtrip
    { GetConversationInfo := fun r => some { ID := r, Name := "general" } }
    (by
      intro r channel hc
      injection hc with hc
      rw [← hc])
    "channel" "C123" (Conversation.channel { ID := "C123", Name := "general" })
    rfl

/-- C8: With `truncate = true`, `textToHtml` clips text longer than 700
characters to its first 700 characters plus an ellipsis (rendering exactly
as if that clipped text had been passed in), clips more than 5 lines to the
first 5 plus a trailing ellipsis line (so at most 6 lines are ever
rendered), and with `truncate = false` no clipping occurs: the rendered
lines are exactly the split of the input. -/
theorem textToHtml_truncation (style : String → List Char)
    (substitute : List Char → List Char) (text : List Char) :
    (text.length > 700 →
      textToHtml style substitute text true =
        textToHtml style substitute (text.take 700 ++ ellipsis) true) ∧
    ((splitLines (truncateTextChars text true)).length > 5 →
      textToHtmlLines text true =
        (splitLines (truncateTextChars text true)).take 5 ++ [ellipsis]) ∧
    (textToHtmlLines text true).length ≤ 6 ∧
    textToHtmlLines text false = splitLines text := by
  refine ⟨?_, ?_, ?_, ?_⟩
  · intro h
    have hchar : truncateTextChars text true = text.take 700 ++ ellipsis := by
      unfold truncateTextChars
      rw [if_pos ⟨rfl, h⟩]
    have hlen : (text.take 700).length = 700 := by
      rw [List.length_take]
      omega
    have hchar2 : truncateTextChars (text.take 700 ++ ellipsis) true
        = text.take 700 ++ ellipsis := by
      unfold truncateTextChars
      rw [if_pos ⟨rfl, by
        rw [List.length_append, hlen]
        unfold ellipsis
        norm_num⟩]
      have htl := List.take_left (text.take 700) ellipsis
      rw [hlen] at htl
      rw [htl]
    unfold textToHtml textToHtmlLines
    rw [hchar, hchar2]
  · intro h
    unfold textToHtmlLines truncateLines
    rw [if_pos ⟨rfl, h⟩]
  · unfold textToHtmlLines truncateLines
    by_cases hc : (splitLines (truncateTextChars text true)).length > 5
    · rw [if_pos ⟨rfl, hc⟩]
      rw [List.length_append, List.length_take]
      simp
    · rw [if_neg (fun hcon => hc hcon.2)]
      omega
  · unfold textToHtmlLines truncateTextChars truncateLines
    rw [if_neg (fun hcon => by cases hcon.1)]
    rw [if_neg (fun hcon => by cases hcon.1)]

/-- Witness for C8: a 701-character text renders identically to its
700-character clip plus ellipsis. -/
theorem textToHtml_truncation_witness :
    textToHtml (fun _ => []) (fun l => l) (List.replicate 701 'a') true =
      textToHtml (fun _ => []) (fun l => l)
        ((List.replicate 701 'a').take 700 ++ ellipsis) true :=
  (textToHtml_truncation (fun _ => []) (fun l => l)
      (List.replicate 701 'a')).1
    (by rw [List.length_replicate]; norm_num)

theorem hexVal_hexDigit (x : Nat) (h : x < 16) : hexVal (hexDigit x) = some x := by
  have hall : ∀ y, y < 16 → hexVal (hexDigit y) = some y := by decide
  exact hall x h

theorem parse_quote (rest : List Nat) :
    parseJsonStringBody (34 :: rest) = some ([], rest) := by
  conv_lhs => rw [parseJsonStringBody.eq_def]
  dsimp only
  rw [if_pos rfl]

theorem parse_esc_quote (r : List Nat) :
    parseJsonStringBody (92 :: 34 :: r)
      = (parseJsonStringBody r).map (fun p => (34 :: p.1, p.2)) := by
  conv_lhs => rw [parseJsonStringBody.eq_def]
  norm_num

theorem parse_esc_backslash (r : List Nat) :
    parseJsonStringBody (92 :: 92 :: r)
      = (parseJsonStringBody r).map (fun p => (92 :: p.1, p.2)) := by
  conv_lhs => rw [parseJsonStringBody.eq_def]
  norm_num

theorem parse_esc_newline (r : List Nat) :
    parseJsonStringBody (92 :: 110 :: r)
      = (parseJsonStringBody r).map (fun p => (10 :: p.1, p.2)) := by
  conv_lhs => rw [parseJsonStringBody.eq_def]
  norm_num

theorem parse_esc_cr (r : List Nat) :
    parseJsonStringBody (92 :: 114 :: r)
      = (parseJsonStringBody r).map (fun p => (13 :: p.1, p.2)) := by
  conv_lhs => rw [parseJsonStringBody.eq_def]
  norm_num

theorem parse_esc_tab (r : List Nat) :
    parseJsonStringBody (92 :: 116 :: r)
      = (parseJsonStringBody r).map (fun p => (9 :: p.1, p.2)) := by
  conv_lhs => rw [parseJsonStringBody.eq_def]
  norm_num

theorem parse_esc_unicode (b : Nat) (hb : b < 128) (r : List Nat) :
    parseJsonStringBody
        (92 :: 117 :: 48 :: 48 :: hexDigit (b / 16) :: hexDigit (b % 16) :: r)
      = (parseJsonStringBody r).map (fun p => (b :: p.1, p.2)) := by
  conv_lhs => rw [parseJsonStringBody.eq_def]
  have e1 : hexVal 48 = some 0 := rfl
  have e3 := hexVal_hexDigit (b / 16) (by omega)
  have e4 := hexVal_hexDigit (b % 16) (by omega)
  norm_num [e1, e3, e4]
  rw [if_pos (by omega : b / 16 * 16 + b % 16 < 128)]
  have hv : b / 16 * 16 + b % 16 = b := by omega
  rw [hv]

theorem parse_plain (b : Nat) (hb34 : ¬ b = 34) (hb92 : ¬ b = 92)
    (hb32 : ¬ b < 32) (r : List Nat) :
    parseJsonStringBody (b :: r)
      = (parseJsonStringBody r).map (fun p => (b :: p.1, p.2)) := by
  conv_lhs => rw [parseJsonStringBody.eq_def]
  dsimp only
  rw [if_neg hb34, if_neg hb92, if_neg hb32]

/-- Unescaping inverts escaping: the string-body parser recovers exactly
the original bytes and stops at the closing quote. -/
theorem parseJsonStringBody_escape :
    ∀ (s : List Nat), (∀ x ∈ s, x < 256) → ∀ rest,
      parseJsonStringBody (escapeString s ++ (34 :: rest)) = some (s, rest) := by
  intro s
  induction s with
  | nil =>
    intro _ rest
    rw [show escapeString [] = [] from rfl, List.nil_append, parse_quote]
  | cons b bs ih =>
    intro hs rest
    have hb : b < 256 := hs b (by simp)
    have hbs : ∀ x ∈ bs, x < 256 := fun x hx => hs x (by simp [hx])
    have hesc : escapeString (b :: bs) = escapeByte b ++ escapeString bs := by
      simp [escapeString]
    rw [hesc, List.append_assoc]
    by_cases h34 : b = 34
    · subst h34
      rw [show escapeByte 34 = [92, 34] from rfl]
      simp only [List.cons_append, List.nil_append]
      rw [parse_esc_quote, ih hbs rest]
      rfl
    · by_cases h92 : b = 92
      · subst h92
        rw [show escapeByte 92 = [92, 92] from rfl]
        simp only [List.cons_append, List.nil_append]
        rw [parse_esc_backslash, ih hbs rest]
        rfl
      · by_cases h10 : b = 10
        · subst h10
          rw [show escapeByte 10 = [92, 110] from rfl]
          simp only [List.cons_append, List.nil_append]
          rw [parse_esc_newline, ih hbs rest]
          rfl
        · by_cases h13 : b = 13
          · subst h13
            rw [show escapeByte 13 = [92, 114] from rfl]
            simp only [List.cons_append, List.nil_append]
            rw [parse_esc_cr, ih hbs rest]
            rfl
          · by_cases h9 : b = 9
            · subst h9
              rw [show escapeByte 9 = [92, 116] from rfl]
              simp only [List.cons_append, List.nil_append]
              rw [parse_esc_tab, ih hbs rest]
              rfl
            · by_cases hspec : b < 32 ∨ b = 60 ∨ b = 62 ∨ b = 38
              · have hesc2 : escapeByte b
                    = [92, 117, 48, 48, hexDigit (b / 16), hexDigit (b % 16)] := by
                  unfold escapeByte
                  rw [if_neg h34, if_neg h92, if_neg h10, if_neg h13,
                    if_neg h9, if_pos hspec]
                rw [hesc2]
                simp only [List.cons_append, List.nil_append]
                rw [parse_esc_unicode b (by omega), ih hbs rest]
                rfl
              · have hesc2 : escapeByte b = [b] := by
                  unfold escapeByte
                  rw [if_neg h34, if_neg h92, if_neg h10, if_neg h13,
                    if_neg h9, if_neg hspec]
                rw [hesc2]
                simp only [List.cons_append, List.nil_append]
                rw [parse_plain b h34 h92 (by omega), ih hbs rest]
                rfl

theorem expectBytes_append (pre rest : List Nat) :
    expectBytes pre (pre ++ rest) = some rest := by
  unfold expectBytes
  rw [if_pos (List.isPrefixOf_iff_prefix.2 (List.prefix_append pre rest))]
  rw [List.drop_left]

/-- `json.Unmarshal` inverts `json.Marshal` on `FileUrlRef`. -/
theorem jsonUnmarshal_jsonMarshal (f : FileUrlRef)
    (h1 : ∀ x ∈ f.FileId, x < 256) (h2 : ∀ x ∈ f.SlackUserId, x < 256) :
    jsonUnmarshalFileUrlRef (jsonMarshalFileUrlRef f) = some f := by
  unfold jsonMarshalFileUrlRef jsonUnmarshalFileUrlRef
  simp only [List.append_assoc, List.singleton_append, List.cons_append,
    List.nil_append]
  rw [expectBytes_append]
  dsimp only
  rw [parseJsonStringBody_escape f.FileId h1]
  dsimp only
  rw [expectBytes_append]
  dsimp only
  rw [parseJsonStringBody_escape f.SlackUserId h2]
  dsimp only
  rw [if_pos rfl]

theorem xorBytes_length (a : List Nat) :
    ∀ b : List Nat, (xorBytes a b).length = min a.length b.length := by
  induction a with
  | nil => intro b; simp [xorBytes]
  | cons x xs ih =>
    intro b
    cases b with
    | nil => simp [xorBytes]
    | cons y ys =>
      simp only [xorBytes, List.length_cons, ih ys]
      omega

theorem xorBytes_cancel (a : List Nat) :
    ∀ k : List Nat, a.length ≤ k.length → xorBytes (xorBytes a k) k = a := by
  induction a with
  | nil => intro k _; cases k <;> rfl
  | cons x xs ih =>
    intro k h
    cases k with
    | nil => simp at h
    | cons y ys =>
      simp only [xorBytes]
      rw [Nat.xor_cancel_right, ih ys (by simpa using h)]

theorem xorBytes_lt (a : List Nat) :
    ∀ k : List Nat, (∀ x ∈ a, x < 256) → (∀ x ∈ k, x < 256) →
      ∀ x ∈ xorBytes a k, x < 256 := by
  induction a with
  | nil => intro k _ _ x hx; simp [xorBytes] at hx
  | cons y ys ih =>
    intro k ha hk x hx
    cases k with
    | nil => simp [xorBytes] at hx
    | cons z zs =>
      simp only [xorBytes, List.mem_cons] at hx
      rcases hx with hx | hx
      · subst hx
        have h1 : y < 2 ^ 8 := by norm_num; exact ha y (by simp)
        have h2 : z < 2 ^ 8 := by norm_num; exact hk z (by simp)
        have hlt := Nat.xor_lt_two_pow h1 h2
        norm_num at hlt
        exact hlt
      · exact ih zs (fun u hu => ha u (by simp [hu]))
          (fun u hu => hk u (by simp [hu])) x hx

theorem cfbEncrypt_nil (E : List Nat → List Nat) (iv : List Nat) :
    cfbEncrypt E iv [] = [] := by
  rw [cfbEncrypt]
  rfl

theorem cfbDecrypt_nil (E : List Nat → List Nat) (iv : List Nat) :
    cfbDecrypt E iv [] = [] := by
  rw [cfbDecrypt]
  rfl

/-- CFB encryption preserves length when the block function returns 16-byte
blocks. -/
theorem cfbEncrypt_length (E : List Nat → List Nat)
    (hE : ∀ b, (E b).length = 16) :
    ∀ n (pt iv : List Nat), pt.length ≤ n →
      (cfbEncrypt E iv pt).length = pt.length := by
  intro n
  induction n with
  | zero =>
    intro pt iv h
    have hpt : pt = [] := List.length_eq_zero.1 (Nat.le_zero.1 h)
    subst hpt
    rw [cfbEncrypt_nil]
  | succ n ih =>
    intro pt iv h
    rw [cfbEncrypt]
    by_cases hpt : pt = []
    · rw [if_pos hpt, hpt]
    · rw [if_neg hpt]
      have hlen : pt.length ≠ 0 := fun h0 => hpt (List.length_eq_zero.1 h0)
      have hdrop : (pt.drop 16).length ≤ n := by
        rw [List.length_drop]
        omega
      simp only [List.length_append, ih (pt.drop 16) _ hdrop,
        xorBytes_length, List.length_take, List.length_drop, hE]
      omega

/-- CFB decryption inverts CFB encryption for any 16-byte block function
and any IV. -/
theorem cfbDecrypt_cfbEncrypt (E : List Nat → List Nat)
    (hE : ∀ b, (E b).length = 16) :
    ∀ n (pt iv : List Nat), pt.length ≤ n →
      cfbDecrypt E iv (cfbEncrypt E iv pt) = pt := by
  intro n
  induction n with
  | zero =>
    intro pt iv h
    have hpt : pt = [] := List.length_eq_zero.1 (Nat.le_zero.1 h)
    subst hpt
    rw [cfbEncrypt_nil, cfbDecrypt_nil]
  | succ n ih =>
    intro pt iv h
    by_cases hpt : pt = []
    · subst hpt
      rw [cfbEncrypt_nil, cfbDecrypt_nil]
    · rw [cfbEncrypt, if_neg hpt]
      have hlen0 : pt.length ≠ 0 := fun h0 => hpt (List.length_eq_zero.1 h0)
      have hchunk : (xorBytes (pt.take 16) (E iv)).length
          = min 16 pt.length := by
        rw [xorBytes_length, List.length_take, hE]
        omega
      have hcne : xorBytes (pt.take 16) (E iv) ≠ [] := by
        intro h0
        have hlx := congrArg List.length h0
        rw [hchunk] at hlx
        simp only [List.length_nil] at hlx
        omega
      dsimp only
      rw [cfbDecrypt,
        if_neg (by
          intro h0
          rcases List.append_eq_nil.1 h0 with ⟨h1, _⟩
          exact hcne h1)]
      dsimp only
      by_cases h16 : 16 ≤ pt.length
      · have hc16 : (xorBytes (pt.take 16) (E iv)).length = 16 := by
          rw [hchunk]; omega
        have htake : (xorBytes (pt.take 16) (E iv)
              ++ cfbEncrypt E (xorBytes (pt.take 16) (E iv)) (pt.drop 16)).take 16
            = xorBytes (pt.take 16) (E iv) := by
          have := List.take_left (xorBytes (pt.take 16) (E iv))
            (cfbEncrypt E (xorBytes (pt.take 16) (E iv)) (pt.drop 16))
          rw [hc16] at this
          exact this
        have hdrop : (xorBytes (pt.take 16) (E iv)
              ++ cfbEncrypt E (xorBytes (pt.take 16) (E iv)) (pt.drop 16)).drop 16
            = cfbEncrypt E (xorBytes (pt.take 16) (E iv)) (pt.drop 16) := by
          have := List.drop_left (xorBytes (pt.take 16) (E iv))
            (cfbEncrypt E (xorBytes (pt.take 16) (E iv)) (pt.drop 16))
          rw [hc16] at this
          exact this
        rw [htake, hdrop]
        rw [xorBytes_cancel (pt.take 16) (E iv)
          (by rw [hE, List.length_take]; omega)]
        rw [ih (pt.drop 16) (xorBytes (pt.take 16) (E iv))
          (by simp only [List.length_drop]; omega)]
        exact List.take_append_drop 16 pt
      · have hlt : pt.length < 16 := by omega
        have htake16 : pt.take 16 = pt := List.take_of_length_le (by omega)
        have hdrop16 : pt.drop 16 = [] := List.drop_of_length_le (by omega)
        rw [htake16, hdrop16, cfbEncrypt_nil, List.append_nil]
        have hclen : (xorBytes pt (E iv)).length = pt.length := by
          rw [xorBytes_length, hE]
          omega
        have htk : (xorBytes pt (E iv)).take 16 = xorBytes pt (E iv) :=
          List.take_of_length_le (by omega)
        have hdr : (xorBytes pt (E iv)).drop 16 = [] :=
          List.drop_of_length_le (by omega)
        rw [htk, hdr, cfbDecrypt_nil, List.append_nil]
        exact xorBytes_cancel pt (E iv) (by rw [hE]; omega)

/-- CFB ciphertext bytes stay below 256 when the plaintext and the block
function outputs do. -/
theorem cfbEncrypt_lt (E : List Nat → List Nat)
    (hEb : ∀ blk, ∀ x ∈ E blk, x < 256) :
    ∀ n (pt iv : List Nat), pt.length ≤ n → (∀ x ∈ pt, x < 256) →
      ∀ x ∈ cfbEncrypt E iv pt, x < 256 := by
  intro n
  induction n with
  | zero =>
    intro pt iv h _ x hx
    have hpt : pt = [] := List.length_eq_zero.1 (Nat.le_zero.1 h)
    subst hpt
    rw [cfbEncrypt, if_pos rfl] at hx
    cases hx
  | succ n ih =>
    intro pt iv h hpt256 x hx
    by_cases hpt : pt = []
    · rw [cfbEncrypt, if_pos hpt] at hx
      cases hx
    · rw [cfbEncrypt, if_neg hpt] at hx
      have hlen0 : pt.length ≠ 0 := fun h0 => hpt (List.length_eq_zero.1 h0)
      rcases List.mem_append.1 hx with hx | hx
      · exact xorBytes_lt (pt.take 16) (E iv)
          (fun u hu => hpt256 u (List.take_subset 16 pt hu))
          (hEb iv) x hx
      · exact ih (pt.drop 16) (xorBytes (pt.take 16) (E iv))
          (by simp only [List.length_drop]; omega)
          (fun u hu => hpt256 u (List.drop_subset 16 pt hu)) x hx

theorem base64UrlIndex_char (v : Nat) (h : v < 64) :
    base64UrlIndex (base64UrlChar v) = some v := by
  have hall : ∀ y, y < 64 → base64UrlIndex (base64UrlChar y) = some y := by
    decide
  exact hall v h

theorem base64UrlChar_ne_pad (v : Nat) (h : v < 64) :
    ¬ base64UrlChar v = 61 := by
  have hall : ∀ y, y < 64 → ¬ base64UrlChar y = 61 := by decide
  exact hall v h

/-- Base64url decoding inverts encoding on byte strings. -/
theorem base64UrlDecode_encode :
    ∀ n (bs : List Nat), bs.length ≤ n → (∀ b ∈ bs, b < 256) →
      base64UrlDecode (base64UrlEncode bs) = some bs := by
  intro n
  induction n with
  | zero =>
    intro bs h _
    have hbs : bs = [] := List.length_eq_zero.1 (Nat.le_zero.1 h)
    subst hbs
    rfl
  | succ n ih =>
    intro bs h hb
    cases bs with
    | nil => rfl
    | cons b1 t1 =>
      have hb1 : b1 < 256 := hb b1 (by simp)
      cases t1 with
      | nil =>
        rw [show base64UrlEncode [b1]
            = [base64UrlChar (b1 / 4), base64UrlChar (b1 % 4 * 16), 61, 61]
          from rfl]
        rw [base64UrlDecode]
        rw [base64UrlIndex_char (b1 / 4) (by omega),
          base64UrlIndex_char (b1 % 4 * 16) (by omega)]
        dsimp only
        rw [if_pos rfl, if_pos rfl, if_pos rfl]
        have : b1 / 4 * 4 + b1 % 4 * 16 / 16 = b1 := by omega
        rw [this]
      | cons b2 t2 =>
        have hb2 : b2 < 256 := hb b2 (by simp)
        cases t2 with
        | nil =>
          rw [show base64UrlEncode [b1, b2]
              = [base64UrlChar (b1 / 4), base64UrlChar (b1 % 4 * 16 + b2 / 16),
                 base64UrlChar (b2 % 16 * 4), 61]
            from rfl]
          rw [base64UrlDecode]
          rw [base64UrlIndex_char (b1 / 4) (by omega),
            base64UrlIndex_char (b1 % 4 * 16 + b2 / 16) (by omega)]
          dsimp only
          rw [if_neg (base64UrlChar_ne_pad (b2 % 16 * 4) (by omega))]
          rw [base64UrlIndex_char (b2 % 16 * 4) (by omega)]
          dsimp only
          rw [if_pos rfl, if_pos rfl]
          have e1 : b1 / 4 * 4 + (b1 % 4 * 16 + b2 / 16) / 16 = b1 := by omega
          have e2 : (b1 % 4 * 16 + b2 / 16) % 16 * 16 + b2 % 16 * 4 / 4 = b2 := by
            omega
          rw [e1, e2]
        | cons b3 rest =>
          have hb3 : b3 < 256 := hb b3 (by simp)
          rw [show base64UrlEncode (b1 :: b2 :: b3 :: rest)
              = base64UrlChar (b1 / 4) :: base64UrlChar (b1 % 4 * 16 + b2 / 16)
                :: base64UrlChar (b2 % 16 * 4 + b3 / 64)
                :: base64UrlChar (b3 % 64) :: base64UrlEncode rest
            from rfl]
          rw [base64UrlDecode]
          rw [base64UrlIndex_char (b1 / 4) (by omega),
            base64UrlIndex_char (b1 % 4 * 16 + b2 / 16) (by omega)]
          dsimp only
          rw [if_neg (base64UrlChar_ne_pad (b2 % 16 * 4 + b3 / 64) (by omega))]
          rw [base64UrlIndex_char (b2 % 16 * 4 + b3 / 64) (by omega)]
          dsimp only
          rw [if_neg (base64UrlChar_ne_pad (b3 % 64) (by omega))]
          rw [base64UrlIndex_char (b3 % 64) (by omega)]
          dsimp only
          rw [ih rest (by simp only [List.length_cons] at h; omega)
            (fun u hu => hb u (by simp [hu]))]
          have e1 : b1 / 4 * 4 + (b1 % 4 * 16 + b2 / 16) / 16 = b1 := by omega
          have e2 : (b1 % 4 * 16 + b2 / 16) % 16 * 16
              + (b2 % 16 * 4 + b3 / 64) / 4 = b2 := by omega
          have e3 : (b2 % 16 * 4 + b3 / 64) % 4 * 64 + b3 % 64 = b3 := by omega
          rw [e1, e2, e3]
          rfl

theorem hexDigit_lt (x : Nat) (h : x < 16) : hexDigit x < 256 := by
  unfold hexDigit
  split <;> omega

theorem escapeByte_lt (b : Nat) (hb : b < 256) : ∀ x ∈ escapeByte b, x < 256 := by
  have hd1 : hexDigit (b / 16) < 256 := hexDigit_lt _ (by omega)
  have hd2 : hexDigit (b % 16) < 256 := hexDigit_lt _ (by omega)
  intro x hx
  unfold escapeByte at hx
  split_ifs at hx
  · simp only [List.mem_cons, List.not_mem_nil, or_false] at hx
    rcases hx with rfl | rfl <;> omega
  · simp only [List.mem_cons, List.not_mem_nil, or_false] at hx
    rcases hx with rfl | rfl <;> omega
  · simp only [List.mem_cons, List.not_mem_nil, or_false] at hx
    rcases hx with rfl | rfl <;> omega
  · simp only [List.mem_cons, List.not_mem_nil, or_false] at hx
    rcases hx with rfl | rfl <;> omega
  · simp only [List.mem_cons, List.not_mem_nil, or_false] at hx
    rcases hx with rfl | rfl <;> omega
  · simp only [List.mem_cons, List.not_mem_nil, or_false] at hx
    rcases hx with rfl | rfl | rfl | rfl | rfl | rfl
    · omega
    · omega
    · omega
    · omega
    · exact hd1
    · exact hd2
  · simp only [List.mem_cons, List.not_mem_nil, or_false] at hx
    subst hx
    exact hb

theorem escapeString_lt (s : List Nat) (hs : ∀ x ∈ s, x < 256) :
    ∀ x ∈ escapeString s, x < 256 := by
  intro x hx
  unfold escapeString at hx
  simp only [List.mem_flatten, List.mem_map] at hx
  obtain ⟨l, ⟨b, hbs, rfl⟩, hxl⟩ := hx
  exact escapeByte_lt b (hs b hbs) x hxl

theorem jsonMarshal_lt (f : FileUrlRef)
    (h1 : ∀ x ∈ f.FileId, x < 256) (h2 : ∀ x ∈ f.SlackUserId, x < 256) :
    ∀ x ∈ jsonMarshalFileUrlRef f, x < 256 := by
  have hhead : ∀ x ∈ jsonHead, x < 256 := by decide
  have hmid : ∀ x ∈ jsonMid, x < 256 := by decide
  intro x hx
  unfold jsonMarshalFileUrlRef at hx
  simp only [List.mem_append, List.mem_cons, List.not_mem_nil, or_false] at hx
  rcases hx with ((((hx | hx) | rfl) | hx) | hx) | rfl | rfl
  · exact hhead x hx
  · exact escapeString_lt f.FileId h1 x hx
  · omega
  · exact hmid x hx
  · exact escapeString_lt f.SlackUserId h2 x hx
  · omega
  · omega

theorem jsonMarshal_length_pos (f : FileUrlRef) :
    1 ≤ (jsonMarshalFileUrlRef f).length := by
  unfold jsonMarshalFileUrlRef jsonHead
  simp

/-- C7: `DecodeFileUrlRef` inverts `FileUrlRef.Encode` for every valid ref
(fields are byte strings), every random IV chosen during encoding, and
every 16-byte block cipher; decoding a corrupted payload (invalid base64,
or a ciphertext no longer than one block) fails with a decode error rather
than panicking. -/
theorem fileUrlRef_encode_decode (E : List Nat → List Nat) (iv : List Nat)
    (f : FileUrlRef)
    (hElen : ∀ b, (E b).length = 16)
    (hEbytes : ∀ blk, ∀ x ∈ E blk, x < 256)
    (hivlen : iv.length = 16)
    (hivbytes : ∀ x ∈ iv, x < 256)
    (hf1 : ∀ x ∈ f.FileId, x < 256)
    (hf2 : ∀ x ∈ f.SlackUserId, x < 256) :
    fileUrlRefDecode E (fileUrlRefEncode E iv f) = .ok f ∧
    fileUrlRefDecode E [33] = .error "base64 decode failed" ∧
    fileUrlRefDecode E (base64UrlEncode (List.replicate 16 0))
      = .error "malformed encrypted FileUrlRef" := by
  refine ⟨?_, rfl, ?_⟩
  · have hml := jsonMarshal_lt f hf1 hf2
    have hctlen : (cfbEncrypt E iv (jsonMarshalFileUrlRef f)).length
        = (jsonMarshalFileUrlRef f).length :=
      cfbEncrypt_length E hElen (jsonMarshalFileUrlRef f).length _ iv le_rfl
    have hctbytes : ∀ x ∈ cfbEncrypt E iv (jsonMarshalFileUrlRef f), x < 256 :=
      cfbEncrypt_lt E hEbytes (jsonMarshalFileUrlRef f).length _ iv le_rfl hml
    have hall : ∀ x ∈ iv ++ cfbEncrypt E iv (jsonMarshalFileUrlRef f),
        x < 256 := by
      intro x hx
      rcases List.mem_append.1 hx with hx | hx
      · exact hivbytes x hx
      · exact hctbytes x hx
    unfold fileUrlRefEncode fileUrlRefDecode
    rw [base64UrlDecode_encode
      (iv ++ cfbEncrypt E iv (jsonMarshalFileUrlRef f)).length _ le_rfl hall]
    dsimp only
    have hmlen := jsonMarshal_length_pos f
    rw [if_neg (by
      simp only [List.length_append, hivlen, hctlen]
      omega)]
    have htake : (iv ++ cfbEncrypt E iv (jsonMarshalFileUrlRef f)).take 16
        = iv := by
      have := List.take_left iv (cfbEncrypt E iv (jsonMarshalFileUrlRef f))
      rw [hivlen] at this
      exact this
    have hdrop : (iv ++ cfbEncrypt E iv (jsonMarshalFileUrlRef f)).drop 16
        = cfbEncrypt E iv (jsonMarshalFileUrlRef f) := by
      have := List.drop_left iv (cfbEncrypt E iv (jsonMarshalFileUrlRef f))
      rw [hivlen] at this
      exact this
    rw [htake, hdrop]
    rw [cfbDecrypt_cfbEncrypt E hElen (jsonMarshalFileUrlRef f).length _ iv
      le_rfl]
    rw [jsonUnmarshal_jsonMarshal f hf1 hf2]
  · rfl

set_option maxHeartbeats 1000000 in
/-- Witness for C7: a concrete ref, IV and 16-byte block function
round-trip, and the two corrupted payloads fail with decode errors. -/
theorem fileUrlRef_encode_decode_witness :
    fileUrlRefDecode
        (fun blk => (blk.map (fun b => b % 256) ++ List.replicate 16 9).take 16)
        (fileUrlRefEncode
          (fun blk => (blk.map (fun b => b % 256) ++ List.replicate 16 9).take 16)
          (List.replicate 16 3)
          { FileId := [70, 49, 50, 51], SlackUserId := [85, 52, 53, 54] })
      = .ok { FileId := [70, 49, 50, 51], SlackUserId := [85, 52, 53, 54] } :=
  (fileUrlRef_encode_decode
    (fun blk => (blk.map (fun b => b % 256) ++ List.replicate 16 9).take 16)
    (List.replicate 16 3)
    { FileId := [70, 49, 50, 51], SlackUserId := [85, 52, 53, 54] }
    (by
      intro b
      simp only [List.length_take, List.length_append, List.length_map,
        List.length_replicate]
      omega)
    (by
      intro blk x hx
      have hx2 := List.take_subset 16 _ hx
      rcases List.mem_append.1 hx2 with hx3 | hx3
      · obtain ⟨y, _, rfl⟩ := List.mem_map.1 hx3
        exact Nat.mod_lt y (by norm_num)
      · rw [List.eq_of_mem_replicate hx3]
        norm_num)
    (by simp)
    (by
      intro x hx
      rw [List.eq_of_mem_replicate hx]
      norm_num)
    (by decide)
    (by decide)).1

end SlackArchive
